import Mathlib

/-!
Verification development for the OpperationWarglass repository.

The development shallowly embeds three subsystems of the repository:

* `src/whitelist_validator.py` — the whitelist policy engine
  (`validate_and_build` and its helper validators);
* `src/ai_agent_codellama.py` — the action normalizer
  (balanced-brace extraction plus conservative text repair);
* `src/orchestrator_stub.py` — the interleaved attack/defense scheduler
  (stage categorization, the main loop, the UDP detection flag).

Strings are modelled as `List Char` (the sources only manipulate text).
Python regular-expression operations used by the sources are embedded as
explicit character scanners, each documented with the regex it models.
-/

/-- Strings of the embedded program, modelled as lists of characters. -/
abbrev Str := List Char

/-- Left brace character, kept as a named constant. -/
def lbrace : Char := Char.ofNat 123

/-- Right brace character, kept as a named constant. -/
def rbrace : Char := Char.ofNat 125

/-- Single-quote (apostrophe) character. -/
def sqChar : Char := Char.ofNat 39

/-- Double-quote character. -/
def dqChar : Char := Char.ofNat 34

/-- Backslash character. -/
def bsChar : Char := Char.ofNat 92

/-- Word character of Python's regex class `\w` restricted to ASCII:
letters, digits and underscore. -/
def isWordChar (c : Char) : Bool :=
  (65 ≤ c.toNat && c.toNat ≤ 90) || (97 ≤ c.toNat && c.toNat ≤ 122) ||
  (48 ≤ c.toNat && c.toNat ≤ 57) || c.toNat = 95

/-- ASCII decimal digit. -/
def isDigitCh (c : Char) : Bool := 48 ≤ c.toNat && c.toNat ≤ 57

/-- ASCII letter (Python regex class `[a-zA-Z]`). -/
def isAlphaCh (c : Char) : Bool :=
  (65 ≤ c.toNat && c.toNat ≤ 90) || (97 ≤ c.toNat && c.toNat ≤ 122)

/-- Whitespace recognized by Python's `\s` and `str.strip` (ASCII part):
space, tab, newline, carriage return, form feed, vertical tab. -/
def isSpaceCh (c : Char) : Bool :=
  c.toNat = 32 || c.toNat = 9 || c.toNat = 10 || c.toNat = 13 ||
  c.toNat = 12 || c.toNat = 11

/-- ASCII lower-casing of a single character, as done by `str.lower` on the
ASCII range (the embedded commands are ASCII). -/
def asciiLower (c : Char) : Char :=
  match c with
  | 'A' => 'a' | 'B' => 'b' | 'C' => 'c' | 'D' => 'd' | 'E' => 'e'
  | 'F' => 'f' | 'G' => 'g' | 'H' => 'h' | 'I' => 'i' | 'J' => 'j'
  | 'K' => 'k' | 'L' => 'l' | 'M' => 'm' | 'N' => 'n' | 'O' => 'o'
  | 'P' => 'p' | 'Q' => 'q' | 'R' => 'r' | 'S' => 's' | 'T' => 't'
  | 'U' => 'u' | 'V' => 'v' | 'W' => 'w' | 'X' => 'x' | 'Y' => 'y'
  | 'Z' => 'z' | c => c

/-- ASCII upper-casing of a single character, as done by `bytes.upper`. -/
def asciiUpper (c : Char) : Char :=
  match c with
  | 'a' => 'A' | 'b' => 'B' | 'c' => 'C' | 'd' => 'D' | 'e' => 'E'
  | 'f' => 'F' | 'g' => 'G' | 'h' => 'H' | 'i' => 'I' | 'j' => 'J'
  | 'k' => 'K' | 'l' => 'L' | 'm' => 'M' | 'n' => 'N' | 'o' => 'O'
  | 'p' => 'P' | 'q' => 'Q' | 'r' => 'R' | 's' => 'S' | 't' => 'T'
  | 'u' => 'U' | 'v' => 'V' | 'w' => 'W' | 'x' => 'X' | 'y' => 'Y'
  | 'z' => 'Z' | c => c

/-- Lower-casing of a whole string (`str.lower`). -/
def toLowerStr (s : Str) : Str := s.map asciiLower

/-! ## Generic string utilities shared by the embeddings -/

/-- Python `str.split(sep)` for a single-character separator
(`ip_str.split(".")` in `ipaddress`). -/
def splitOnChar (sep : Char) : Str → List Str
  | [] => [[]]
  | c :: rest =>
    if c = sep then [] :: splitOnChar sep rest
    else
      match splitOnChar sep rest with
      | [] => [[c]]
      | p :: ps => (c :: p) :: ps

/-- Substring test: models Python's `tok in s`. -/
def isSubstr (pat : Str) : Str → Bool
  | [] => pat.isEmpty
  | c :: rest => pat.isPrefixOf (c :: rest) || isSubstr pat rest

/-- Boundary condition after a matched token: the regex `\b` placed after a
word-only token holds iff the next character is absent or not a word
character. -/
def tailBoundaryOk (tok s : Str) : Bool :=
  match s.drop tok.length with
  | [] => true
  | d :: _ => !isWordChar d

/-- Scanner for Python's `re.search(r"\b" + tok + r"\b", s)` where `tok`
consists of word characters only.  `prevW` records whether the character just
before the current position is a word character (`false` at the start of the
string). -/
def hasWordTokAux (tok : Str) (prevW : Bool) : Str → Bool
  | [] => false
  | c :: rest =>
    (!prevW && tok.isPrefixOf (c :: rest) && tailBoundaryOk tok (c :: rest)) ||
    hasWordTokAux tok (isWordChar c) rest

/-- Word-boundary search, models `re.search(r"\btok\b", s)` for an
all-letters token. -/
def hasWordTok (tok s : Str) : Bool := hasWordTokAux tok false s

/-- Fuelled worker for `replaceAll`; fuel `s.length` always suffices. -/
def replaceAllF : Nat → Str → Str → Str → Str
  | 0, _, _, s => s
  | f + 1, pat, rep, s =>
    match s with
    | [] => []
    | c :: rest =>
      if pat ≠ [] ∧ pat.isPrefixOf (c :: rest) = true then
        rep ++ replaceAllF f pat rep ((c :: rest).drop pat.length)
      else c :: replaceAllF f pat rep rest

/-- Python `s.replace(pat, rep)`: left-to-right, non-overlapping replacement
of every occurrence.  (The sources never call `replace` with an empty
pattern; for `pat = []` this embedding returns `s` unchanged.) -/
def replaceAll (pat rep s : Str) : Str := replaceAllF s.length pat rep s

/-- Scanner state machine for `re.sub(r"\{\w+\}", "", cmd)`: the pending
state holds, in reverse, a currently open candidate group (a left brace
followed by word characters).  A group is removed exactly when it closes with
a right brace and holds at least one word character, matching the regex's
leftmost, non-overlapping matches. -/
def stripGo : Option Str → Str → Str
  | none, [] => []
  | some pend, [] => pend.reverse
  | none, c :: rest =>
    if c = lbrace then stripGo (some [c]) rest else c :: stripGo none rest
  | some pend, c :: rest =>
    if isWordChar c then stripGo (some (c :: pend)) rest
    else if c = rbrace ∧ 2 ≤ pend.length then stripGo none rest
    else
      pend.reverse ++
        (if c = lbrace then stripGo (some [c]) rest else c :: stripGo none rest)

/-- Placeholder removal `re.sub(r"\{\w+\}", "", cmd)` from
`validate_and_build`. -/
def stripPlaceholders (s : Str) : Str := stripGo none s

/-- Scanner for `re.sub(r"\s+", " ", cmd)`: every maximal whitespace run
becomes a single space; `inRun` tells whether the previous character was
whitespace. -/
def cwGo : Bool → Str → Str
  | _, [] => []
  | inRun, c :: rest =>
    if isSpaceCh c then
      if inRun then cwGo true rest else ' ' :: cwGo true rest
    else c :: cwGo false rest

/-- Whitespace collapse `re.sub(r"\s+", " ", cmd)`. -/
def collapseWs (s : Str) : Str := cwGo false s

/-- Python `str.strip()` (ASCII whitespace). -/
def pyStrip (s : Str) : Str :=
  ((s.dropWhile isSpaceCh).reverse.dropWhile isSpaceCh).reverse

/-- Whitespace normalization of `validate_and_build`:
`re.sub(r"\s+", " ", cmd).strip()`. -/
def normWs (s : Str) : Str := pyStrip (collapseWs s)

/-- Numeric value of a string of decimal digits (most significant first),
as computed by Python's `int(...)` on a digit string. -/
def digitsToNat (s : Str) : Nat := s.foldl (fun acc c => 10 * acc + (c.toNat - 48)) 0

/-! ## Data model: Python/JSON values -/

/-- Python values as they occur in parsed JSON actions.  Floats carry sign,
decimal mantissa and decimal exponent as parsed from a JSON numeric literal;
`floatSpecial` covers `NaN`/`Infinity`/`-Infinity` (accepted by Python's
`json.loads`).  Only ASCII text is modelled. -/
inductive Value where
  | str (s : Str)
  | int (n : Int)
  | bool (b : Bool)
  | null
  | pyFloat (neg : Bool) (mant : Nat) (exp : Int)
  | floatSpecial (s : Str)
  | list (xs : List Value)
  | obj (kvs : List (Str × Value))

/-- Python truthiness (`if not x`) for the embedded values. -/
def truthy : Value → Bool
  | .str s => !s.isEmpty
  | .int n => n ≠ 0
  | .bool b => b
  | .null => false
  | .pyFloat _ mant _ => mant ≠ 0
  | .floatSpecial _ => true
  | .list xs => !xs.isEmpty
  | .obj kvs => !kvs.isEmpty

/-- Dictionary lookup (`d.get(k)`): dictionaries are association lists with
unique keys, so first-match lookup models Python's `dict.get`. -/
def objGet (kvs : List (Str × Value)) (k : Str) : Option Value :=
  (kvs.find? (fun kv => decide (kv.1 = k))).map (fun kv => kv.2)

/-! ## Whitelist policy engine (`src/whitelist_validator.py`) -/

/-- One parameter schema entry of a tool in `whitelist.yaml`
(`{name, required, type, min, max, allowed_paths, allowed}`); defaults mirror
the `pmeta.get(..., default)` calls of `validate_and_build`.  The field
`ptype` embeds the YAML key `type`. -/
structure ParamSpec where
  name : Str
  required : Bool := false
  ptype : Str := ("string").data
  minv : Option Int := none
  maxv : Option Int := none
  allowed_paths : List Str := []
  allowed : List Str := []
deriving DecidableEq, Repr

/-- One tool entry of `whitelist.yaml`. -/
structure ToolPolicy where
  params : List ParamSpec := []
  template : Str := []
  requires_approval : Bool := false
deriving DecidableEq, Repr

/-- The loaded policy document (`WL`): tool name to tool policy. -/
structure PolicyDoc where
  tools : List (Str × ToolPolicy) := []
deriving DecidableEq, Repr

/-- Lookup of a tool policy (`tools.get(tool_name)`). -/
def plLookup (tools : List (Str × ToolPolicy)) (k : Str) : Option ToolPolicy :=
  (tools.find? (fun kv => decide (kv.1 = k))).map (fun kv => kv.2)

/-- Validation / policy errors: one constructor per distinct `raise` site of
`whitelist_validator.py`. -/
inductive VErr where
  | actionNotDict
  | missingTool
  | unknownTool (name : Str)
  | toolKeyTypeErr
  | missingParam (name : Str)
  | invalidIP (name : Str)
  | valueNotString
  | invalidAlnum
  | portsNotString
  | invalidPorts
  | notAnInteger
  | intBelowMin
  | intAboveMax
  | pathNotAllowed
  | enumNotAllowed
  | ifaceNotAllowed
  | paramNotString (name : Str)
  | invalidChars (name : Str)
  | noTemplate (name : Str)
  | blacklisted (tok : Str)
deriving DecidableEq, Repr

/-- Octet acceptance of `ipaddress.IPv4Address._parse_octet`: non-empty, only
ASCII decimal digits, at most 3 characters, no leading zero, value at most
255. -/
def parseOctet (p : Str) : Option Nat :=
  if p.isEmpty then none
  else if !p.all isDigitCh then none
  else if 3 < p.length then none
  else if p.head? = some '0' ∧ p.length ≠ 1 then none
  else if digitsToNat p ≤ 255 then some (digitsToNat p) else none

/-- Embeds `is_valid_ip`: `ipaddress.IPv4Address(val)` succeeds on a string
iff it splits on `.` into exactly four acceptable octets. -/
def is_valid_ip (s : Str) : Bool :=
  match splitOnChar '.' s with
  | [a, b, c, d] =>
    (parseOctet a).isSome && (parseOctet b).isSome &&
    (parseOctet c).isSome && (parseOctet d).isSome
  | _ => false

/-- Character class of `sanitize_alnum`'s regex `[A-Za-z0-9_\-]`. -/
def isAlnumLabelCh (c : Char) : Bool := isWordChar c || c = '-'

/-- Embeds `sanitize_alnum` (with the default `max_len = 128` used by
`validate_and_build`). -/
def sanitize_alnum (v : Value) : Except VErr Str :=
  match v with
  | .str s =>
    if s ≠ [] ∧ s.length ≤ 128 ∧ s.all isAlnumLabelCh then .ok s
    else .error .invalidAlnum
  | _ => .error .valueNotString

/-- Character class of `sanitize_ports`' regex `[0-9,\-]`. -/
def isPortsCh (c : Char) : Bool := isDigitCh c || c = ',' || c = '-'

/-- Embeds `sanitize_ports`: digits/commas/hyphens, prefixed with `-p `. -/
def sanitize_ports (v : Value) : Except VErr Str :=
  match v with
  | .str s =>
    if s ≠ [] ∧ s.all isPortsCh then .ok ('-' :: 'p' :: ' ' :: s)
    else .error .invalidPorts
  | _ => .error .portsNotString

/-- Decimal digit character for a digit value (0–9). -/
def digitCh : Nat → Char
  | 0 => '0' | 1 => '1' | 2 => '2' | 3 => '3' | 4 => '4'
  | 5 => '5' | 6 => '6' | 7 => '7' | 8 => '8' | 9 => '9'
  | _ => '0'

/-- Fuelled decimal printer; fuel `n + 1` always suffices. -/
def natCharsF : Nat → Nat → Str
  | 0, _ => []
  | f + 1, n => if n < 10 then [digitCh n] else natCharsF f (n / 10) ++ [digitCh (n % 10)]

/-- Decimal representation of a natural number (`str(n)`). -/
def natChars (n : Nat) : Str := natCharsF (n + 1) n

/-- Decimal representation of an integer (`str(v)` for `int` values). -/
def intRepr (n : Int) : Str :=
  if n < 0 then '-' :: natChars n.natAbs else natChars n.toNat

/-- Digit groups of a Python integer literal: digits optionally separated by
single underscores (`int("1_000")` is accepted); returns the digits. -/
def underscoreDigits : Str → Option Str
  | [] => none
  | [c] => if isDigitCh c then some [c] else none
  | c :: '_' :: r2 =>
    if isDigitCh c then (underscoreDigits r2).map (fun t => c :: t) else none
  | c :: c2 :: r2 =>
    if isDigitCh c then (underscoreDigits (c2 :: r2)).map (fun t => c :: t) else none

/-- Python `int(s)` on a string: strip whitespace, optional sign, decimal
digits with optional single underscores (ASCII only). -/
def pyIntOfString (s : Str) : Option Int :=
  match pyStrip s with
  | '+' :: rest => (underscoreDigits rest).map (fun d => (digitsToNat d : Int))
  | '-' :: rest => (underscoreDigits rest).map (fun d => -(digitsToNat d : Int))
  | t => (underscoreDigits t).map (fun d => (digitsToNat d : Int))

/-- Truncation toward zero of a decimal mantissa/exponent float
(`int(float)`). -/
def floatTrunc (neg : Bool) (mant : Nat) (exp : Int) : Int :=
  let mag : Nat := if 0 ≤ exp then mant * 10 ^ exp.toNat else mant / 10 ^ (-exp).toNat
  if neg then -(mag : Int) else (mag : Int)

/-- Python `int(val)` for the embedded values; `None`, lists, dicts and
non-numeric strings raise (`none`). -/
def pyToInt : Value → Option Int
  | .int n => some n
  | .bool b => some (if b then 1 else 0)
  | .str s => pyIntOfString s
  | .pyFloat neg mant exp => some (floatTrunc neg mant exp)
  | _ => none

/-- Embeds `sanitize_int`: convert with `int(...)`, check declared bounds,
return the decimal string form. -/
def sanitize_int (v : Value) (minv maxv : Option Int) : Except VErr Str :=
  match pyToInt v with
  | none => .error .notAnInteger
  | some n =>
    match minv with
    | some lo => if n < lo then .error .intBelowMin else
        match maxv with
        | some hi => if hi < n then .error .intAboveMax else .ok (intRepr n)
        | none => .ok (intRepr n)
    | none =>
        match maxv with
        | some hi => if hi < n then .error .intAboveMax else .ok (intRepr n)
        | none => .ok (intRepr n)

/-- Embeds `check_allowed_path` / `check_enum` / `check_iface`: Python's
`val in allowed` over a list of strings (a non-string value never equals a
string). -/
def checkMembership (v : Value) (allowed : List Str) (e : VErr) : Except VErr Str :=
  match v with
  | .str s => if s ∈ allowed then .ok s else .error e
  | _ => .error e

/-- Character class of the default-string regex `[A-Za-z0-9_\-./]`. -/
def isDefaultSafeCh (c : Char) : Bool :=
  isWordChar c || c = '-' || c = '.' || c = '/'

/-- The module-level `BLACKLIST_TOKENS` list of `whitelist_validator.py`, in
source order. -/
def BLACKLIST_TOKENS : List Str :=
  [[';'], ['&', '&'], ['|'], ['>'], ['<'], ['$', '('], ['$'],
   ("rm").data, ("shutdown").data, ("reboot").data]

/-- Worker of `assert_no_blacklist`: iterate the tokens in order; an
all-letters token (`re.fullmatch("[a-zA-Z]+", tok)`) is searched with word
boundaries, any other token as a plain substring, both against the
lower-cased command. -/
def assertNoBlacklistGo (low : Str) : List Str → Except VErr Unit
  | [] => .ok ()
  | tok :: rest =>
    if tok = [] then assertNoBlacklistGo low rest
    else if tok ≠ [] ∧ tok.all isAlphaCh then
      if hasWordTok tok low then .error (.blacklisted tok)
      else assertNoBlacklistGo low rest
    else if isSubstr tok low then .error (.blacklisted tok)
    else assertNoBlacklistGo low rest

/-- Embeds `assert_no_blacklist` (the check runs on `cmd.lower()`). -/
def assertNoBlacklist (cmd : Str) : Except VErr Unit :=
  assertNoBlacklistGo (toLowerStr cmd) BLACKLIST_TOKENS

/-- Per-parameter validation dispatch of `validate_and_build` on the declared
`type` string (unknown types fall to the default safe-string branch, as in
the source). -/
def validateOne (p : ParamSpec) (raw : Value) : Except VErr Str :=
  if p.ptype = ("ip").data then
    match raw with
    | .str s => if is_valid_ip s then .ok s else .error (.invalidIP p.name)
    | _ => .error (.invalidIP p.name)
  else if p.ptype = ("alnum").data then sanitize_alnum raw
  else if p.ptype = ("ports").data then sanitize_ports raw
  else if p.ptype = ("int").data then sanitize_int raw p.minv p.maxv
  else if p.ptype = ("existing_path").data then
    checkMembership raw p.allowed_paths .pathNotAllowed
  else if p.ptype = ("enum").data then checkMembership raw p.allowed .enumNotAllowed
  else if p.ptype = ("iface").data then checkMembership raw p.allowed .ifaceNotAllowed
  else
    match raw with
    | .str s =>
      if s ≠ [] ∧ s.all isDefaultSafeCh then .ok s else .error (.invalidChars p.name)
    | _ => .error (.paramNotString p.name)

/-- The parameter-validation loop of `validate_and_build`: walk the declared
specs in order, skip absent optional parameters, reject absent required ones,
and collect validated values in declaration order (the insertion order of the
Python `validated` dict). -/
def validateParams : List ParamSpec → List (Str × Value) → Except VErr (List (Str × Str))
  | [], _ => .ok []
  | p :: rest, params =>
    match objGet params p.name with
    | none =>
      if p.required then .error (.missingParam p.name)
      else validateParams rest params
    | some raw =>
      match validateOne p raw with
      | .error e => .error e
      | .ok v =>
        match validateParams rest params with
        | .error e => .error e
        | .ok vs => .ok ((p.name, v) :: vs)

/-- Parameter-source resolution of `validate_and_build`:
`params = action.get("params", {})`, and only when that value is present and
not a dict are the non-`tool` top-level keys used instead (note the dict
default `{}` passes the `isinstance` test, so an absent `params` key resolves
to the empty parameter set). -/
def resolveParams (kvs : List (Str × Value)) : List (Str × Value) :=
  match (objGet kvs ("params").data).getD (.obj []) with
  | .obj pkvs => pkvs
  | _ => kvs.filter (fun kv => kv.1 ≠ ("tool").data)

/-- Template rendering of `validate_and_build`: for each validated pair, in
order, `cmd = cmd.replace("{" + k + "}", v)`. -/
def renderTemplate (template : Str) (validated : List (Str × Str)) : Str :=
  validated.foldl (fun acc kv => replaceAll (lbrace :: kv.1 ++ [rbrace]) kv.2 acc) template

/-- Metadata returned by `validate_and_build`. -/
structure CmdMeta where
  tool : Str
  requires_approval : Bool
  template : Str
  validated_params : List (Str × Str)
deriving DecidableEq, Repr

/-- Tool-specific part of `validate_and_build` once the tool policy is
resolved: validate parameters, require a non-empty template, substitute
placeholders, strip leftover placeholders, normalize whitespace and run the
blacklist check. -/
def buildWithTool (tname : Str) (tm : ToolPolicy) (kvs : List (Str × Value)) :
    Except VErr (Str × CmdMeta) :=
  match validateParams tm.params (resolveParams kvs) with
  | .error e => .error e
  | .ok validated =>
    if tm.template = [] then .error (.noTemplate tname)
    else
      match assertNoBlacklist (normWs (stripPlaceholders (renderTemplate tm.template validated))) with
      | .error e => .error e
      | .ok _ =>
        .ok (normWs (stripPlaceholders (renderTemplate tm.template validated)),
             ⟨tname, tm.requires_approval, tm.template, validated⟩)

/-- Embeds `validate_and_build(action)` of `whitelist_validator.py`, with the
loaded policy document `wl` passed explicitly.  The tool name must be present
and truthy; a list- or dict-valued tool raises `TypeError` at the dictionary
lookup (unhashable key); other non-string hashable values are not keys of the
tools mapping. -/
def validate_and_build (wl : PolicyDoc) (action : Value) : Except VErr (Str × CmdMeta) :=
  match action with
  | .obj kvs =>
    if truthy ((objGet kvs ("tool").data).getD .null) = false then .error .missingTool
    else
      match (objGet kvs ("tool").data).getD .null with
      | .list _ => .error .toolKeyTypeErr
      | .obj _ => .error .toolKeyTypeErr
      | .str tname =>
        match plLookup wl.tools tname with
        | none => .error (.unknownTool tname)
        | some tool_meta => buildWithTool tname tool_meta kvs
      | _ => .error (.unknownTool [])
  | _ => .error .actionNotDict

/-- Modelled from the spec: the repository's `whitelist.yaml` (the policy
document loaded by `whitelist_validator.py`) is not under `src/`.  The spec's
scenario declares a tool `ping` with one required `ip` parameter `target` and
command template `ping -c 3 {target}`; this policy document embeds exactly
that scenario. -/
def specPolicy : PolicyDoc :=
  { tools := [(("ping").data,
      { params := [{ name := ("target").data, required := true, ptype := ("ip").data }],
        template := ("ping -c 3 ").data ++ lbrace :: ("target").data ++ [rbrace] })] }

/-! ## Claim-side predicates -/

/-- The string `s` contains `t` as a plain substring. -/
def SubstrOccurs (t s : Str) : Prop := ∃ a b, s = a ++ t ++ b

/-- The string `s` contains the word-only token `t` at word boundaries
(no word character directly before or after the occurrence). -/
def WordOccurs (t s : Str) : Prop :=
  ∃ a b, s = a ++ t ++ b ∧
    (∀ c, a.getLast? = some c → isWordChar c = false) ∧
    (∀ c, b.head? = some c → isWordChar c = false)

/-- The symbol entries of the blacklist, as listed by the claim. -/
def symbolTokens : List Str :=
  [[';'], ['&', '&'], ['|'], ['>'], ['<'], ['$', '('], ['$']]

/-- The word entries of the blacklist, as listed by the claim. -/
def wordTokens : List Str := [("rm").data, ("shutdown").data, ("reboot").data]

/-- The claim's blacklist property of a final command: no symbol token occurs
as a substring and no word token occurs at word boundaries. -/
def NoBlacklistTokens (s : Str) : Prop :=
  (∀ t ∈ symbolTokens, ¬ SubstrOccurs t s) ∧ (∀ t ∈ wordTokens, ¬ WordOccurs t s)

/-- The claim's placeholder property: the string contains no substring of the
literal placeholder shape `{name}` for any non-empty word `name`. -/
def PlaceholderFree (s : Str) : Prop :=
  ¬ ∃ a w b, s = a ++ lbrace :: (w ++ rbrace :: b) ∧ w ≠ [] ∧
      (∀ c ∈ w, isWordChar c = true)

/-- The string contains no brace character. -/
def BraceFree (s : Str) : Prop := ∀ c ∈ s, c ≠ lbrace ∧ c ≠ rbrace

/-- Segment of a template: literal text or a `{name}` placeholder group. -/
inductive Seg where
  | lit (s : Str)
  | ph (n : Str)

/-- Flattening of one segment back to text. -/
def flatSeg : Seg → Str
  | .lit s => s
  | .ph n => lbrace :: n ++ [rbrace]

/-- Flattening of a segment list. -/
def flatSegs (L : List Seg) : Str := (L.map flatSeg).flatten

/-- Well-formedness of one segment: literal text is brace-free; a placeholder
name is a non-empty word. -/
def SegOk : Seg → Prop
  | .lit s => BraceFree s
  | .ph n => n ≠ [] ∧ ∀ c ∈ n, isWordChar c = true

/-- A string is well-braced if it decomposes into brace-free literal text and
well-formed `{name}` placeholder groups. -/
def WellBraced (s : Str) : Prop := ∃ L, (∀ g ∈ L, SegOk g) ∧ s = flatSegs L

/-- Modelled from the spec: well-formedness of the policy document.  The
repository's `whitelist.yaml` is not under `src/`; the spec describes a
ToolPolicy as "a command template (string containing named placeholders)" and
allow-lists as fixed sets of exact paths / interface / enum values.  This
predicate captures that reading: every brace of a template belongs to a
well-formed `{name}` placeholder group, declared parameter names are
non-empty words, and allow-listed values contain no brace characters. -/
def WellFormedPolicy (wl : PolicyDoc) : Prop :=
  ∀ e ∈ wl.tools, WellBraced e.2.template ∧
    ∀ p ∈ e.2.params,
      (p.name ≠ [] ∧ ∀ c ∈ p.name, isWordChar c = true) ∧
      (∀ v ∈ p.allowed_paths, BraceFree v) ∧ (∀ v ∈ p.allowed, BraceFree v)

/-- Errors raised by the tool-resolution step of `validate_and_build`
(step 1 of the spec, its `UnknownTool` rejection family). -/
def isToolResolutionErr : VErr → Bool
  | .missingTool => true
  | .unknownTool _ => true
  | .toolKeyTypeErr => true
  | _ => false

/-- Canonical decimal octet string: non-empty digits, no leading zero, value
at most 255. -/
def CanonOctet (p : Str) : Prop :=
  p ≠ [] ∧ (∀ c ∈ p, isDigitCh c = true) ∧
  (∀ c, p.head? = some c → c.toNat = 48 → p.length = 1) ∧ digitsToNat p ≤ 255

/-- Valid dotted IPv4 string: four canonical octets joined by dots. -/
def IsDottedQuad (s : Str) : Prop :=
  ∃ p1 p2 p3 p4, CanonOctet p1 ∧ CanonOctet p2 ∧ CanonOctet p3 ∧ CanonOctet p4 ∧
    s = p1 ++ '.' :: (p2 ++ '.' :: (p3 ++ '.' :: p4))

/-- The spec's backward-compatible calling convention: parameters at top
level, no nested `params` mapping (the second quick test of
`whitelist_validator.py.__main__`). -/
def pingActionTopLevel : Value :=
  .obj [(("tool").data, .str (("ping").data)),
        (("target").data, .str (("10.0.0.5").data))]

/-- The same action in nested-`params` form. -/
def pingActionNested : Value :=
  .obj [(("tool").data, .str (("ping").data)),
        (("params").data, .obj [(("target").data, .str (("10.0.0.5").data))])]

/-- The ping tool policy of `specPolicy`. -/
def pingPolicy : ToolPolicy :=
  { params := [{ name := ("target").data, required := true, ptype := ("ip").data }],
    template := ("ping -c 3 ").data ++ lbrace :: ("target").data ++ [rbrace] }

/-- Substitution of one placeholder name by a literal value at the segment
level (the effect of `cmd.replace("{" + k + "}", v)` on a well-braced
string). -/
def substSeg (k v : Str) : Seg → Seg
  | .lit s => .lit s
  | .ph n => if n = k then .lit v else .ph n

/-! ## Action normalizer (`src/ai_agent_codellama.py`) -/

/-- Worker of `_find_first_balanced`: walks the string with current index,
the index of the first opening character seen (`start`), and the stack depth
(the stack only ever holds copies of the opening character, so its depth
suffices).  A closing character first pops if the stack is non-empty, then
returns the slice bounds if the stack is empty and `start` is set. -/
def findBalancedAux (oc cc : Char) : Str → Nat → Option Nat → Nat → Option (Nat × Nat)
  | [], _, _, _ => none
  | c :: rest, i, start, depth =>
    if c = oc then
      findBalancedAux oc cc rest (i + 1) (some (start.getD i)) (depth + 1)
    else if c = cc then
      let depth2 := depth - 1
      match start with
      | some s0 =>
        if depth2 = 0 then some (s0, i)
        else findBalancedAux oc cc rest (i + 1) (some s0) depth2
      | none => findBalancedAux oc cc rest (i + 1) none depth2
    else findBalancedAux oc cc rest (i + 1) start depth

/-- Python slice `s[a : b + 1]`. -/
def sliceStr (s : Str) (a b : Nat) : Str := (s.drop a).take (b + 1 - a)

/-- Embeds `_find_first_balanced(s, open_ch, close_ch)`. -/
def find_first_balanced (oc cc : Char) (s : Str) : Option Str :=
  (findBalancedAux oc cc s 0 none 0).map (fun p => sliceStr s p.1 p.2)

/-- Replacement of curly/smart quotes by straight quotes (the four
`s.replace` calls opening `_conservative_repair_text`). -/
def smartQuoteFix (c : Char) : Char :=
  if c = '“' ∨ c = '”' then dqChar
  else if c = '’' ∨ c = '‘' then sqChar
  else c

/-- Word-boundary condition before a match whose first character is a word
character: start of string or previous character not a word character. -/
def boundaryOkP : Option Char → Bool
  | none => true
  | some p => !isWordChar p

/-- Case-insensitive literal prefix match (for the `(?i)` label patterns). -/
def ciMatch (lbl s : Str) : Bool := toLowerStr (s.take lbl.length) = lbl

/-- Fuelled worker for `subLabel`; fuel `s.length` suffices since every step
consumes at least one character (the labels are non-empty). -/
def subLabelF (lbl : Str) : Nat → Option Char → Str → Str
  | 0, _, s => s
  | f + 1, prev, s =>
    match s with
    | [] => []
    | c :: rest =>
      if boundaryOkP prev ∧ ciMatch lbl (c :: rest) then
        subLabelF lbl f
          (some ((((c :: rest).drop lbl.length).takeWhile isSpaceCh).getLast?.getD ':'))
          (((c :: rest).drop lbl.length).dropWhile isSpaceCh)
      else c :: subLabelF lbl f (some c) rest

/-- Embeds `re.sub(r"(?i)\blbl\s*", "", s)` for a label `lbl` that starts
with a word character and ends in `:` (the `action:` / `json:` labels):
at a word boundary, a case-insensitive occurrence of the label and the
whitespace run after it are dropped. -/
def subLabel (lbl s : Str) : Str := subLabelF lbl s.length none s

/-- Maximal digit run and remainder. -/
def grabRun (s : Str) : Str × Str := (s.takeWhile isDigitCh, s.dropWhile isDigitCh)

/-- Trailing `\b` after a digit: next character absent or not a word
character. -/
def trailBoundary : Str → Bool
  | [] => true
  | d :: _ => !isWordChar d

/-- One attempted match of `(\d{1,3}),(\d{1,3}),(\d{1,3}),(\d{1,3})\b` at the
current position: four comma-separated maximal digit runs of length 1–3
followed by a non-word character or the end.  Returns the dotted rewrite, the
remainder, and the last consumed character. -/
def tryCommaIp (s : Str) : Option (Str × Str × Char) :=
  let p1 := grabRun s
  if p1.1 = [] ∨ 3 < p1.1.length then none else
  match p1.2 with
  | ',' :: s1b =>
    let p2 := grabRun s1b
    if p2.1 = [] ∨ 3 < p2.1.length then none else
    match p2.2 with
    | ',' :: s2b =>
      let p3 := grabRun s2b
      if p3.1 = [] ∨ 3 < p3.1.length then none else
      match p3.2 with
      | ',' :: s3b =>
        let p4 := grabRun s3b
        if p4.1 = [] ∨ 3 < p4.1.length then none
        else if trailBoundary p4.2 then
          some (p1.1 ++ '.' :: p2.1 ++ '.' :: p3.1 ++ '.' :: p4.1, p4.2,
                p4.1.getLast?.getD '0')
        else none
      | _ => none
    | _ => none
  | _ => none

/-- Fuelled worker for `commaIpFix`. -/
def commaIpF : Nat → Option Char → Str → Str
  | 0, _, s => s
  | f + 1, prev, s =>
    match s with
    | [] => []
    | c :: rest =>
      match (if boundaryOkP prev then tryCommaIp (c :: rest) else none) with
      | some out => out.1 ++ commaIpF f (some out.2.2) out.2.1
      | none => c :: commaIpF f (some c) rest

/-- Embeds the comma-separated-address rewrite
`re.sub(r"\b(\d{1,3}),(\d{1,3}),(\d{1,3}),(\d{1,3})\b", dotted, s)`. -/
def commaIpFix (s : Str) : Str := commaIpF s.length none s

/-- Quote character (single or double). -/
def isQuoteCh (c : Char) : Bool := c = dqChar || c = sqChar

/-- Embeds `re.search(r'["\']\w+["\']\s*:', s)`: a quoted word followed by
optional whitespace and a colon. -/
def hasQuoteKey : Str → Bool
  | [] => false
  | c :: rest =>
    (isQuoteCh c &&
      (rest.takeWhile isWordChar ≠ [] &&
        match rest.dropWhile isWordChar with
        | q :: r2 =>
          isQuoteCh q &&
            (match r2.dropWhile isSpaceCh with
             | ':' :: _ => true
             | _ => false)
        | [] => false)) ||
    hasQuoteKey rest

/-- Embeds `re.search(r'\{\s*["\']', s)`: an opening brace followed by
optional whitespace and a quote. -/
def hasBraceQuote : Str → Bool
  | [] => false
  | c :: rest =>
    (c = lbrace &&
      (match rest.dropWhile isSpaceCh with
       | q :: _ => isQuoteCh q
       | [] => false)) ||
    hasBraceQuote rest

/-- Embeds `re.sub(r"(?<!\w)'(?!\w)", '"', s)`: a single quote becomes a
double quote only when neither neighbour (in the original string) is a word
character. -/
def quoteSubAux : Option Char → Str → Str
  | _, [] => []
  | prev, c :: rest =>
    if c = sqChar ∧ boundaryOkP prev = true ∧ trailBoundary rest = true then
      dqChar :: quoteSubAux (some c) rest
    else c :: quoteSubAux (some c) rest

/-- The isolated-single-quote conversion of `_conservative_repair_text`. -/
def quoteSub (s : Str) : Str := quoteSubAux none s

/-- Fuelled worker for `removeTrailingCommas`. -/
def remTrailF : Nat → Str → Str
  | 0, s => s
  | f + 1, s =>
    match s with
    | [] => []
    | c :: rest =>
      if c = ',' then
        match rest.dropWhile isSpaceCh with
        | b :: r2 =>
          if b = rbrace ∨ b = ']' then b :: remTrailF f r2
          else c :: remTrailF f rest
        | [] => c :: remTrailF f rest
      else c :: remTrailF f rest

/-- Embeds the trailing-comma removal `re.sub(r",\s*([}\]])", r"\1", s)`. -/
def removeTrailingCommas (s : Str) : Str := remTrailF s.length s

/-- Embeds `_conservative_repair_text`: smart-quote normalization, label
stripping, comma-address rewrite, conditional single-to-double quote
conversion (the lookaround substitution followed by the four targeted
`str.replace` calls), and trailing-comma removal, in source order. -/
def conservative_repair_text (s : Str) : Str :=
  let s1 := s.map smartQuoteFix
  let s2 := subLabel (("action:").data) s1
  let s3 := subLabel (("json:").data) s2
  let s4 := commaIpFix s3
  let s5 :=
    if hasQuoteKey s4 || hasBraceQuote s4 then
      replaceAll [',', sqChar] [',', dqChar]
        (replaceAll [sqChar, ','] [dqChar, ',']
          (replaceAll [':', sqChar] [':', dqChar]
            (replaceAll [sqChar, ':'] [dqChar, ':'] (quoteSub s4))))
    else s4
  removeTrailingCommas s5

/-- A candidate is used only when truthy (`if candidate:`), i.e. non-empty. -/
def nonEmptyOpt (o : Option Str) : Option Str :=
  o.bind (fun s => if s.isEmpty then none else some s)

/-- Embeds the last-resort `re.search(r"\{.*\}", repaired, re.DOTALL)`:
greedy match from the first opening brace to the last closing brace. -/
def greedyBraces (s : Str) : Option Str :=
  match s.findIdx? (fun c => c = lbrace), s.reverse.findIdx? (fun c => c = rbrace) with
  | some i, some rj =>
    let j := s.length - 1 - rj
    if i < j then some (sliceStr s i j) else none
  | _, _ => none

/-- Embeds `extract_first_json`: balanced object, balanced array, the two
again on the repaired text, then the greedy brace match; `none` models the
`ValueError` raise. -/
def extract_first_json (output : Str) : Option Str :=
  match nonEmptyOpt (find_first_balanced lbrace rbrace output) with
  | some c => some c
  | none =>
    match nonEmptyOpt (find_first_balanced '[' ']' output) with
    | some c => some c
    | none =>
      match nonEmptyOpt (find_first_balanced lbrace rbrace
          (conservative_repair_text output)) with
      | some c => some c
      | none =>
        match nonEmptyOpt (find_first_balanced '[' ']'
            (conservative_repair_text output)) with
        | some c => some c
        | none => greedyBraces (conservative_repair_text output)

/-- Whitespace accepted between JSON tokens by `json.loads`
(space, tab, newline, carriage return). -/
def isJsonWs (c : Char) : Bool :=
  c.toNat = 32 || c.toNat = 9 || c.toNat = 10 || c.toNat = 13

/-- Hexadecimal digit value (for `\u` escapes). -/
def hexVal (c : Char) : Option Nat :=
  if isDigitCh c then some (c.toNat - 48)
  else if 97 ≤ c.toNat ∧ c.toNat ≤ 102 then some (c.toNat - 87)
  else if 65 ≤ c.toNat ∧ c.toNat ≤ 70 then some (c.toNat - 55)
  else none

/-- JSON string-body scanner (after the opening double quote): handles the
standard escapes and `\uXXXX` (astral surrogate pairing is not combined),
rejects raw控 control characters below 0x20, and returns the decoded body and
the remainder after the closing quote. -/
def pStr : Str → Option (Str × Str)
  | [] => none
  | c :: rest =>
    if c = dqChar then some ([], rest)
    else if c = bsChar then
      match rest with
      | [] => none
      | e :: r2 =>
        if e = dqChar then (pStr r2).map (fun p => (dqChar :: p.1, p.2))
        else if e = bsChar then (pStr r2).map (fun p => (bsChar :: p.1, p.2))
        else if e = '/' then (pStr r2).map (fun p => ('/' :: p.1, p.2))
        else if e = 'b' then (pStr r2).map (fun p => (Char.ofNat 8 :: p.1, p.2))
        else if e = 'f' then (pStr r2).map (fun p => (Char.ofNat 12 :: p.1, p.2))
        else if e = 'n' then (pStr r2).map (fun p => (Char.ofNat 10 :: p.1, p.2))
        else if e = 'r' then (pStr r2).map (fun p => (Char.ofNat 13 :: p.1, p.2))
        else if e = 't' then (pStr r2).map (fun p => (Char.ofNat 9 :: p.1, p.2))
        else if e = 'u' then
          match r2 with
          | h1 :: h2 :: h3 :: h4 :: r3 =>
            match hexVal h1, hexVal h2, hexVal h3, hexVal h4 with
            | some a, some b, some c2, some d =>
              (pStr r3).map (fun p =>
                (Char.ofNat (a * 4096 + b * 256 + c2 * 16 + d) :: p.1, p.2))
            | _, _, _, _ => none
          | _ => none
        else none
    else if c.toNat < 32 then none
    else (pStr rest).map (fun p => (c :: p.1, p.2))

/-- JSON number scanner: optional minus, integer part (`0` or a non-zero-led
digit run), optional fraction, optional exponent.  A pure integer becomes
`Value.int`; anything with a fraction or exponent becomes `Value.pyFloat`
with decimal mantissa and exponent. -/
def pNum (s : Str) : Option (Value × Str) :=
  let sgn := match s with
    | '-' :: r => (true, r)
    | _ => (false, s)
  match sgn.2 with
  | [] => none
  | c :: _ =>
    if ¬ isDigitCh c = true then none
    else
      let ip := if c = '0' then (([c] : Str), sgn.2.tail)
                else (sgn.2.takeWhile isDigitCh, sgn.2.dropWhile isDigitCh)
      let fr : Option (Str × Str) := match ip.2 with
        | '.' :: r =>
          if (r.takeWhile isDigitCh) = [] then none
          else some (r.takeWhile isDigitCh, r.dropWhile isDigitCh)
        | _ => some ([], ip.2)
      match fr with
      | none => none
      | some fp =>
        let ex : Option (Bool × Str × Str) := match fp.2 with
          | 'e' :: r =>
            (match r with
             | '-' :: r2 => if (r2.takeWhile isDigitCh) = [] then none
                 else some (true, r2.takeWhile isDigitCh, r2.dropWhile isDigitCh)
             | '+' :: r2 => if (r2.takeWhile isDigitCh) = [] then none
                 else some (false, r2.takeWhile isDigitCh, r2.dropWhile isDigitCh)
             | _ => if (r.takeWhile isDigitCh) = [] then none
                 else some (false, r.takeWhile isDigitCh, r.dropWhile isDigitCh))
          | 'E' :: r =>
            (match r with
             | '-' :: r2 => if (r2.takeWhile isDigitCh) = [] then none
                 else some (true, r2.takeWhile isDigitCh, r2.dropWhile isDigitCh)
             | '+' :: r2 => if (r2.takeWhile isDigitCh) = [] then none
                 else some (false, r2.takeWhile isDigitCh, r2.dropWhile isDigitCh)
             | _ => if (r.takeWhile isDigitCh) = [] then none
                 else some (false, r.takeWhile isDigitCh, r.dropWhile isDigitCh))
          | _ => some (false, [], fp.2)
        match ex with
        | none => none
        | some ep =>
          if fp.1 = [] ∧ ep.2.1 = [] then
            some (.int (if sgn.1 then -(digitsToNat ip.1 : Int) else (digitsToNat ip.1 : Int)),
                  ip.2)
          else
            some (.pyFloat sgn.1 (digitsToNat (ip.1 ++ fp.1))
                    ((if ep.1 then -(digitsToNat ep.2.1 : Int) else (digitsToNat ep.2.1 : Int)) -
                      (fp.1.length : Int)),
                  ep.2.2)

/-- Python dict insertion `d[k] = v`: a duplicate key keeps its original
position but takes the new value (`json.loads` keeps the last duplicate). -/
def objUpsert : List (Str × Value) → Str → Value → List (Str × Value)
  | [], k, v => [(k, v)]
  | kv :: rest, k, v => if kv.1 = k then (k, v) :: rest else kv :: objUpsert rest k v

/-- Parser modes: a value, object members (directly after `{` where `}` may
close immediately, or after a comma where a member is mandatory), array
elements likewise. -/
inductive PMode where
  | value
  | members0
  | members1
  | elems0
  | elems1

/-- Parser intermediate results. -/
inductive PRes where
  | val (v : Value)
  | mems (l : List (Str × Value))
  | elems (l : List Value)

/-- Fuelled recursive-descent JSON parser modelling `json.loads` (including
the non-standard `NaN`/`Infinity`/`-Infinity` constants Python accepts).
Fuel `2 * length + 2` always suffices. -/
def pF : Nat → PMode → Str → Option (PRes × Str)
  | 0, _, _ => none
  | f + 1, .value, s0 =>
    match s0.dropWhile isJsonWs with
    | [] => none
    | c :: rest =>
      if c = dqChar then (pStr rest).map (fun p => (.val (.str p.1), p.2))
      else if c = lbrace then
        (pF f .members0 rest).bind (fun p =>
          match p.1 with
          | .mems l =>
            some (.val (.obj (l.foldl (fun d kv => objUpsert d kv.1 kv.2) [])), p.2)
          | _ => none)
      else if c = '[' then
        (pF f .elems0 rest).bind (fun p =>
          match p.1 with
          | .elems l => some (.val (.list l), p.2)
          | _ => none)
      else if ("true").data.isPrefixOf (c :: rest) then
        some (.val (.bool true), (c :: rest).drop 4)
      else if ("false").data.isPrefixOf (c :: rest) then
        some (.val (.bool false), (c :: rest).drop 5)
      else if ("null").data.isPrefixOf (c :: rest) then
        some (.val .null, (c :: rest).drop 4)
      else if ("NaN").data.isPrefixOf (c :: rest) then
        some (.val (.floatSpecial (("NaN").data)), (c :: rest).drop 3)
      else if ("Infinity").data.isPrefixOf (c :: rest) then
        some (.val (.floatSpecial (("Infinity").data)), (c :: rest).drop 8)
      else if ("-Infinity").data.isPrefixOf (c :: rest) then
        some (.val (.floatSpecial (("-Infinity").data)), (c :: rest).drop 9)
      else (pNum (c :: rest)).map (fun p => (.val p.1, p.2))
  | f + 1, .members0, s0 =>
    match s0.dropWhile isJsonWs with
    | [] => none
    | c :: rest =>
      if c = rbrace then some (.mems [], rest)
      else pF f .members1 s0
  | f + 1, .members1, s0 =>
    match s0.dropWhile isJsonWs with
    | [] => none
    | c :: rest =>
      if c = dqChar then
        (pStr rest).bind (fun pk =>
          match pk.2.dropWhile isJsonWs with
          | ':' :: r2 =>
            (pF f .value r2).bind (fun pv =>
              match pv.1 with
              | .val v =>
                (match pv.2.dropWhile isJsonWs with
                 | ',' :: r3 =>
                   (pF f .members1 r3).bind (fun pm =>
                     match pm.1 with
                     | .mems l => some (.mems ((pk.1, v) :: l), pm.2)
                     | _ => none)
                 | b :: r3 =>
                   if b = rbrace then some (.mems [(pk.1, v)], r3) else none
                 | [] => none)
              | _ => none)
          | _ => none)
      else none
  | f + 1, .elems0, s0 =>
    match s0.dropWhile isJsonWs with
    | [] => none
    | c :: rest =>
      if c = ']' then some (.elems [], rest)
      else pF f .elems1 s0
  | f + 1, .elems1, s0 =>
    (pF f .value s0).bind (fun pv =>
      match pv.1 with
      | .val v =>
        (match pv.2.dropWhile isJsonWs with
         | ',' :: r3 =>
           (pF f .elems1 r3).bind (fun pe =>
             match pe.1 with
             | .elems l => some (.elems (v :: l), pe.2)
             | _ => none)
         | b :: r3 => if b = ']' then some (.elems [v], r3) else none
         | [] => none)
      | _ => none)

/-- Embeds `json.loads`: parse one value, then only whitespace may remain. -/
def jsonParse (s : Str) : Option Value :=
  match pF (2 * s.length + 2) .value s with
  | some (.val v, rest) => if rest.dropWhile isJsonWs = [] then some v else none
  | _ => none

/-- Normalizer errors: no JSON-like block found, or the candidate remained
invalid after repair (the `RuntimeError` raise of `get_action_from_llm`,
carrying the raw and repaired candidates). -/
inductive NormErr where
  | noJson
  | invalidJson (raw repaired : Str)
deriving DecidableEq, Repr

/-- Embeds the extraction-plus-repair pipeline of `get_action_from_llm`
(after the subprocess call): strip the output, extract the first JSON-like
block, strip it, parse it; on a parse failure repair once and retry; fail
with the raw and repaired candidates otherwise. -/
def normalize_action (output : Str) : Except NormErr Value :=
  match extract_first_json (pyStrip output) with
  | none => .error .noJson
  | some cand0 =>
    match jsonParse (pyStrip cand0) with
    | some v => .ok v
    | none =>
      match jsonParse (conservative_repair_text (pyStrip cand0)) with
      | some v => .ok v
      | none => .error (.invalidJson (pyStrip cand0)
          (conservative_repair_text (pyStrip cand0)))

/-- The C5 input text, character by character:
`Action: {'tool':'ping', 'params': {'target': '192,168,60,3'}},`. -/
def c5Input : Str :=
  ("Action: ").data ++
  [lbrace, sqChar] ++ ("tool").data ++ [sqChar, ':', sqChar] ++ ("ping").data ++
  [sqChar, ',', ' ', sqChar] ++ ("params").data ++ [sqChar, ':', ' '] ++
  [lbrace, sqChar] ++ ("target").data ++ [sqChar, ':', ' ', sqChar] ++
  ("192,168,60,3").data ++ [sqChar, rbrace, rbrace, ',']

/-- The balanced candidate extracted from the C5 input (the braces span,
label and trailing comma excluded). -/
def c5Candidate : Str :=
  [lbrace, sqChar] ++ ("tool").data ++ [sqChar, ':', sqChar] ++ ("ping").data ++
  [sqChar, ',', ' ', sqChar] ++ ("params").data ++ [sqChar, ':', ' '] ++
  [lbrace, sqChar] ++ ("target").data ++ [sqChar, ':', ' ', sqChar] ++
  ("192,168,60,3").data ++ [sqChar, rbrace, rbrace]

/-- The candidate after `_conservative_repair_text`: the comma-separated
address is repaired and the quotes adjacent to colons and commas are
converted, but the opening quotes of keys (after `{` or a space) and the
quotes around the address value stay single, so the text is still not valid
JSON. -/
def c5Repaired : Str :=
  [lbrace, sqChar] ++ ("tool").data ++ [dqChar, ':', dqChar] ++ ("ping").data ++
  [dqChar, ',', ' ', sqChar] ++ ("params").data ++ [dqChar, ':', ' '] ++
  [lbrace, sqChar] ++ ("target").data ++ [dqChar, ':', ' ', sqChar] ++
  ("192.168.60.3").data ++ [sqChar, rbrace, rbrace]

/-! ## Interleaved stage scheduler (`src/orchestrator_stub.py`) -/

/-- One stage from `prompts.yaml` / `order.yaml`. -/
structure Stage where
  name : Str := []
  category : Option Str := none
  prompt : Str := []
deriving DecidableEq, Repr

/-- SSH dispatch target: `run_ssh_command` always connects to
`SSH_HOST = 192.168.60.2` (the red machine); `run_ssh_command_capture` can
also reach the blue machine. -/
inductive Target where
  | red
  | blue
deriving DecidableEq, Repr

/-- Stage-local errors caught by the loop's `try/except` blocks:
`get_action_from_llm` raised, the raw action was neither a dict nor a JSON
string, `json.loads` failed, or `validate_and_build` rejected. -/
inductive StageErr where
  | llm (msg : Str)
  | notDict
  | badJson
  | policy (e : VErr)
deriving DecidableEq, Repr

/-- Structured events emitted by the orchestrator (the `emit` calls), plus
`dispatch` events recording each `run_ssh_command` invocation with the host
it connects to. -/
inductive Event where
  | info (msg : Str)
  | warn (msg : Str)
  | status (phase : Str) (step : Nat) (stage : Str) (msg : Str)
  | dispatch (t : Target) (cmd : Str)
  | complete (phase : Str) (step : Nat) (stage : Str)
  | errorEv (phase : Str) (step : Nat) (stage : Str) (e : StageErr)
  | alert
  | debug (detected : Bool)
  | finished
deriving DecidableEq, Repr

/-- Embeds `run_ssh_command(cmd)`: it opens an SSH connection to `SSH_HOST`
(`192.168.60.2`, the red/attacker machine) unconditionally; the remote
execution outcome is outside the model. -/
def run_ssh_command (cmd : Str) : Event := .dispatch .red cmd

/-- Recognition of a detection datagram by `detection_listener`:
`data.strip().upper() == b"ALERT"`. -/
def isAlertDatagram (data : Str) : Bool :=
  (pyStrip data).map asciiUpper = ("ALERT").data

/-- One datagram processed by the listener: a recognized alert sets the flag,
anything else leaves it unchanged. -/
def listenerStep (flag : Bool) (data : Str) : Bool :=
  if isAlertDatagram data then true else flag

/-- The flag after the listener has processed a batch of datagrams. -/
def applyDatagrams (flag : Bool) (ds : List Str) : Bool := ds.foldl listenerStep flag

/-- Embeds `check_detection_on_blue`: returns (detected, new flag); a set
flag is consumed (reset to `False`) by the read that observes it. -/
def check_detection_on_blue (flag : Bool) : Bool × Bool :=
  if flag then (true, false) else (false, flag)

/-- The scheduler's mutable state: the three stage cursors, the
`defense_started` latch, the shared detection flag, and the emitted events
(in order). -/
structure SchedState where
  attack_idx : Nat := 0
  purpose_idx : Nat := 0
  defense_idx : Nat := 0
  defense_started : Bool := false
  flag : Bool := false
  events : List Event := []
deriving DecidableEq, Repr

/-- Static configuration of the main loop: the policy document and the
categorized attack/defense stage lists (purpose stages are only counted at
startup and never enter the loop). -/
structure SchedConfig where
  wl : PolicyDoc
  attack_stages : List Stage
  defense_stages : List Stage

/-- The per-iteration environment: results of the up to three
`get_action_from_llm` calls (an `Except.error` models a raised exception),
and the datagrams the background listener receives during the iteration. -/
structure IterOracle where
  attackLLM : Except Str Value
  monitorLLM : Except Str Value
  escalateLLM : Except Str Value
  datagrams : List Str

/-- Embeds the per-stage pipeline
`raw = get_action_from_llm(...); action = raw if isinstance(raw, dict) else
json.loads(raw); cmd, _ = validate_and_build(action)`. -/
def tryAction (wl : PolicyDoc) (llmRes : Except Str Value) : Except StageErr Str :=
  match llmRes with
  | .error m => .error (.llm m)
  | .ok raw =>
    match raw with
    | .obj kvs =>
      (match validate_and_build wl (.obj kvs) with
       | .error e => .error (.policy e)
       | .ok r => .ok r.1)
    | .str s =>
      (match jsonParse s with
       | none => .error .badJson
       | some v =>
         match validate_and_build wl v with
         | .error e => .error (.policy e)
         | .ok r => .ok r.1)
    | _ => .error .notDict

/-- The attack step of one loop iteration (guarded by
`attack_idx < len(attack_stages)` at the call site): emit the status, run
the stage (errors are caught and reported), and advance the attack cursor. -/
def attackStep (cfg : SchedConfig) (orc : IterOracle) (st : SchedState) (s : Stage) :
    SchedState :=
  let ev0 := st.events ++
    [.status (("attack").data) (st.attack_idx + 1) s.name (("Starting attack step").data)]
  match tryAction cfg.wl orc.attackLLM with
  | .ok cmd =>
    { st with
      events := ev0 ++ [run_ssh_command cmd,
        .complete (("attack").data) (st.attack_idx + 1) s.name],
      attack_idx := st.attack_idx + 1 }
  | .error e =>
    { st with
      events := ev0 ++ [.errorEv (("attack").data) (st.attack_idx + 1) s.name e],
      attack_idx := st.attack_idx + 1 }

/-- The defense-monitor block run right after an attack step while
`defense_started` is still false.  The indexing
`ds = defense_stages[defense_idx]` happens before (outside) the block's
`try/except`, so an out-of-range cursor is an uncaught `IndexError`:
modelled as `none`.  On success the monitor command has `red` textually
replaced by `blue` and is dispatched through `run_ssh_command` (which
connects to the red host); the latch is set only when the stage pipeline
succeeded. -/
def monitorStep (cfg : SchedConfig) (orc : IterOracle) (st : SchedState) :
    Option SchedState :=
  if cfg.defense_stages ≠ [] ∧ st.defense_started = false then
    if h : st.defense_idx < cfg.defense_stages.length then
      let ds := cfg.defense_stages.get ⟨st.defense_idx, h⟩
      let ev0 := st.events ++
        [.status (("defense").data) (st.defense_idx + 1) ds.name
          (("Starting defense monitor (Blue)").data)]
      match tryAction cfg.wl orc.monitorLLM with
      | .ok dcmd =>
        some { st with
          events := ev0 ++
            [run_ssh_command (replaceAll (("red").data) (("blue").data) dcmd),
             .info (("Defense monitor started (Blue)").data)],
          defense_started := true }
      | .error e =>
        some { st with
          events := ev0 ++ [.errorEv (("defense").data) (st.defense_idx + 1) ds.name e] }
    else none
  else some st

/-- The detection-triggered escalation block: only entered when the defense
cursor is in range; the cursor is advanced whether or not the stage pipeline
succeeded (the increment sits after the `try/except`). -/
def escalateStep (cfg : SchedConfig) (orc : IterOracle) (st : SchedState) : SchedState :=
  if h : st.defense_idx < cfg.defense_stages.length then
    let ds := cfg.defense_stages.get ⟨st.defense_idx, h⟩
    let ev0 := st.events ++
      [.status (("defense").data) (st.defense_idx + 1) ds.name
        (("Detection confirmed - running defense action").data)]
    match tryAction cfg.wl orc.escalateLLM with
    | .ok dcmd =>
      { st with
        events := ev0 ++ [run_ssh_command dcmd,
          .complete (("defense").data) (st.defense_idx + 1) ds.name],
        defense_idx := st.defense_idx + 1 }
    | .error e =>
      { st with
        events := ev0 ++ [.errorEv (("defense").data) (st.defense_idx + 1) ds.name e],
        defense_idx := st.defense_idx + 1 }
  else st

/-- Result of one loop iteration: continue, leave the loop (`break`), or die
with the uncaught `IndexError` of the monitor block (carrying the offending
cursor value). -/
inductive IterResult where
  | next (st : SchedState)
  | exitLoop (st : SchedState)
  | crash (st : SchedState) (idx : Nat)
deriving DecidableEq, Repr

/-- The state carried by an iteration result. -/
def iterState : IterResult → SchedState
  | .next st => st
  | .exitLoop st => st
  | .crash st _ => st

/-- The state transformation of the sleep/poll/escalate tail of one
iteration: the listener's datagrams arrive, the flag is polled and consumed
(emitting `alert` exactly when the poll observed it, then the `debug`
record), and a confirmed detection runs the escalation block. -/
def afterSleepCore (cfg : SchedConfig) (orc : IterOracle) (st : SchedState) : SchedState :=
  let det := check_detection_on_blue (applyDatagrams st.flag orc.datagrams)
  let st2 := { st with
    flag := det.2,
    events := st.events ++ (if det.1 then [Event.alert] else []) ++ [.debug det.1] }
  if det.1 then escalateStep cfg orc st2 else st2

/-- The sleep/poll/escalate tail of one iteration followed by the loop's
exit check: the loop ends when both cursors are exhausted. -/
def afterSleep (cfg : SchedConfig) (orc : IterOracle) (st : SchedState) : IterResult :=
  if cfg.attack_stages.length ≤ (afterSleepCore cfg orc st).attack_idx ∧
     cfg.defense_stages.length ≤ (afterSleepCore cfg orc st).defense_idx then
    .exitLoop (afterSleepCore cfg orc st)
  else .next (afterSleepCore cfg orc st)

/-- One iteration of the main interleaving loop of `orchestrator_stub.py`:
run the next attack stage if any (then the monitor block if defense has not
started), otherwise `break` when defense is also done; then sleep, poll the
flag, and possibly escalate. -/
def loopIter (cfg : SchedConfig) (orc : IterOracle) (st : SchedState) : IterResult :=
  if ha : st.attack_idx < cfg.attack_stages.length then
    let st1 := attackStep cfg orc st (cfg.attack_stages.get ⟨st.attack_idx, ha⟩)
    match monitorStep cfg orc st1 with
    | none => .crash st1 st1.defense_idx
    | some st2 => afterSleep cfg orc st2
  else
    if cfg.defense_stages.length ≤ st.defense_idx then .exitLoop st
    else afterSleep cfg orc st

/-- Stage categorization of the module scope: filter by the `category` tag;
when no stage carries a tag, an empty catalog is run-fatal
(`emit warn; sys.exit(0)`, modelled as `none`), and a non-empty untagged
catalog is split into contiguous thirds
(`t1 = max(1, n // 3)`, `t2 = max(1, 2 * n // 3)`). -/
def categorizeStages (stages : List Stage) :
    Option (List Stage × List Stage × List Stage) :=
  let att := stages.filter (fun s => s.category = some (("attack").data))
  let pur := stages.filter (fun s => s.category = some (("purpose").data))
  let dfs := stages.filter (fun s => s.category = some (("defense").data))
  if att = [] ∧ pur = [] ∧ dfs = [] then
    if stages.length = 0 then none
    else
      let t1 := max 1 (stages.length / 3)
      let t2 := max 1 (2 * stages.length / 3)
      some (stages.take t1, (stages.drop t1).take (t2 - t1), stages.drop t2)
  else some (att, pur, dfs)

/-- Run outcome: the empty-catalog early exit (`sys.exit(0)` with exit code
0 after the warning), normal loop completion, the uncaught monitor
`IndexError`, or fuel exhaustion (the loop is still running). -/
inductive RunOutcome where
  | exitedEmpty (events : List Event)
  | finished (st : SchedState)
  | crashed (st : SchedState) (idx : Nat)
  | outOfFuel (st : SchedState)
deriving DecidableEq, Repr

/-- The state carried by a run outcome. -/
def outState : RunOutcome → SchedState
  | .exitedEmpty evs => { events := evs }
  | .finished st => st
  | .crashed st _ => st
  | .outOfFuel st => st

/-- The fuelled main loop: one `loopIter` per fuel unit, indexing the oracle
by iteration. -/
def runLoop (cfg : SchedConfig) (orc : Nat → IterOracle) :
    Nat → Nat → SchedState → RunOutcome
  | 0, _, st => .outOfFuel st
  | f + 1, k, st =>
    match loopIter cfg (orc k) st with
    | .next st2 => runLoop cfg orc f (k + 1) st2
    | .exitLoop st2 => .finished { st2 with events := st2.events ++ [.finished] }
    | .crash st2 i => .crashed st2 i

/-- The startup `Interleaving: ...` info message with the three counts. -/
def interleavingMsg (na np nd : Nat) : Str :=
  ("Interleaving: ").data ++ natChars na ++ (" attack steps, ").data ++
  natChars np ++ (" purpose steps, ").data ++ natChars nd ++ (" defense steps").data

/-- Embeds the orchestrator run from stage categorization onward: an empty
catalog warns and exits successfully with zero stages executed; otherwise the
purpose count is reported at startup and the interleaving loop runs over the
attack and defense lists only. -/
def runOrchestrator (wl : PolicyDoc) (stages : List Stage) (orc : Nat → IterOracle)
    (fuel : Nat) : RunOutcome :=
  match categorizeStages stages with
  | none => .exitedEmpty [.warn (("No stages defined; nothing to run").data)]
  | some (att, pur, dfs) =>
    runLoop ⟨wl, att, dfs⟩ orc fuel 0
      { events := [.info (interleavingMsg att.length pur.length dfs.length)] }

/-- The phase carried by a phase-tagged event. -/
def eventPhase : Event → Option Str
  | .status ph _ _ _ => some ph
  | .complete ph _ _ => some ph
  | .errorEv ph _ _ _ => some ph
  | _ => none

/-- The (phase, step, stage-name) of a `status` event. -/
def statusStage : Event → Option (Str × Nat × Str)
  | .status ph i nm _ => some (ph, i, nm)
  | _ => none

/-- The targets of all dispatch events, in order. -/
def dispatchTargets (evs : List Event) : List Target :=
  evs.filterMap (fun e => match e with | .dispatch t _ => some t | _ => none)

/-- The (step, stage-name) of the defense-phase status events, in order. -/
def defStatuses : List Event → List (Nat × Str)
  | [] => []
  | .status ph i nm _ :: rest =>
    if ph = ("defense").data then (i, nm) :: defStatuses rest else defStatuses rest
  | _ :: rest => defStatuses rest

/-- The number of `alert` events in a trace (one per observed detection). -/
def countAlert : List Event → Nat
  | [] => 0
  | .alert :: rest => countAlert rest + 1
  | _ :: rest => countAlert rest

/-- The (target, command) pairs of all dispatch events, in order. -/
def dispatches (evs : List Event) : List (Target × Str) :=
  evs.filterMap (fun e => match e with | .dispatch t c => some (t, c) | _ => none)

/-- Good-events invariant of the main loop: no event carries the purpose
phase, and every status event belongs to a stage of the attack or defense
list of the configuration. -/
def GoodEvents (cfg : SchedConfig) (evs : List Event) : Prop :=
  ∀ e ∈ evs, eventPhase e ≠ some (("purpose").data) ∧
    ∀ ph i nm, statusStage e = some (ph, i, nm) →
      (ph = ("attack").data ∧ nm ∈ cfg.attack_stages.map Stage.name) ∨
      (ph = ("defense").data ∧ nm ∈ cfg.defense_stages.map Stage.name)

/-- Concrete attack stage used by the scheduler scenarios. -/
def stAttack1 : Stage :=
  { name := ("recon").data, category := some (("attack").data), prompt := ("p1").data }

/-- Second concrete attack stage. -/
def stAttack2 : Stage :=
  { name := ("exploit").data, category := some (("attack").data), prompt := ("p2").data }

/-- First concrete defense stage. -/
def stDefense1 : Stage :=
  { name := ("monitor").data, category := some (("defense").data), prompt := ("p3").data }

/-- Second concrete defense stage. -/
def stDefense2 : Stage :=
  { name := ("block").data, category := some (("defense").data), prompt := ("p4").data }

/-- A well-formed ping action against the given address. -/
def mkPing (ip : Str) : Value :=
  .obj [(("tool").data, .str (("ping").data)),
        (("params").data, .obj [(("target").data, .str ip)])]

/-- Oracle whose three calls all return the valid ping action and whose
window sees no datagram. -/
def okOracle : IterOracle :=
  ⟨.ok (mkPing (("10.0.0.5").data)), .ok (mkPing (("10.0.0.5").data)),
   .ok (mkPing (("10.0.0.5").data)), []⟩

/-- Scenario oracle: in the first iteration the monitor call raises, an
alert datagram arrives, and the escalation succeeds (against `10.0.0.1`);
later iterations succeed (the monitor against `10.0.0.2`). -/
def orcC10 : Nat → IterOracle
  | 0 => ⟨.ok (mkPing (("10.0.0.5").data)), .error (("LLM unavailable").data),
          .ok (mkPing (("10.0.0.1").data)), [("ALERT").data]⟩
  | _ => ⟨.ok (mkPing (("10.0.0.5").data)), .ok (mkPing (("10.0.0.2").data)),
          .ok (mkPing (("10.0.0.5").data)), []⟩

/-- Does the outcome report the uncaught monitor `IndexError`? -/
def isCrashed : RunOutcome → Bool
  | .crashed _ _ => true
  | _ => false

/-! ## Supporting lemmas -/

theorem isWordChar_asciiLower (c : Char) :
    isWordChar (asciiLower c) = isWordChar c := by
  unfold asciiLower
  split <;> rfl

theorem isDigitCh_ne_braces {c : Char} (h : isDigitCh c = true) :
    c ≠ lbrace ∧ c ≠ rbrace := by
  constructor <;> rintro rfl <;> revert h <;> decide

theorem isWordChar_ne_braces {c : Char} (h : isWordChar c = true) :
    c ≠ lbrace ∧ c ≠ rbrace := by
  constructor <;> rintro rfl <;> revert h <;> decide


/-- C2: for every action dict whose `tool` value is absent or is not a key of
the policy document's tools mapping, `validate_and_build` rejects with an
error of the tool-resolution step (the spec's `UnknownTool` rejection family,
covering its "tool is absent or not a key" case), regardless of what
parameters the action contains. -/
theorem validator_unknown_tool_rejects (wl : PolicyDoc) (kvs : List (Str × Value))
    (h : ¬ ∃ s, objGet kvs (("tool").data) = some (.str s) ∧
         (plLookup wl.tools s).isSome = true) :
    ∃ e, validate_and_build wl (.obj kvs) = .error e ∧ isToolResolutionErr e = true := by
  cases hg : objGet kvs (("tool").data) with
  | none =>
    exact ⟨.missingTool, by simp [validate_and_build, hg, truthy], rfl⟩
  | some v =>
    cases v with
    | null => exact ⟨.missingTool, by simp [validate_and_build, hg, truthy], rfl⟩
    | bool b =>
      cases b with
      | false => exact ⟨.missingTool, by simp [validate_and_build, hg, truthy], rfl⟩
      | true => exact ⟨.unknownTool [], by simp [validate_and_build, hg, truthy], rfl⟩
    | int n =>
      by_cases hn : n = 0
      · subst hn
        exact ⟨.missingTool, by simp [validate_and_build, hg, truthy], rfl⟩
      · exact ⟨.unknownTool [], by simp [validate_and_build, hg, truthy, hn], rfl⟩
    | pyFloat neg mant exp =>
      by_cases hm : mant = 0
      · subst hm
        exact ⟨.missingTool, by simp [validate_and_build, hg, truthy], rfl⟩
      · exact ⟨.unknownTool [], by simp [validate_and_build, hg, truthy, hm], rfl⟩
    | floatSpecial fs =>
      exact ⟨.unknownTool [], by simp [validate_and_build, hg, truthy], rfl⟩
    | list xs =>
      cases xs with
      | nil => exact ⟨.missingTool, by simp [validate_and_build, hg, truthy], rfl⟩
      | cons x xt => exact ⟨.toolKeyTypeErr, by simp [validate_and_build, hg, truthy], rfl⟩
    | obj okvs =>
      cases okvs with
      | nil => exact ⟨.missingTool, by simp [validate_and_build, hg, truthy], rfl⟩
      | cons x xt => exact ⟨.toolKeyTypeErr, by simp [validate_and_build, hg, truthy], rfl⟩
    | str s =>
      cases s with
      | nil => exact ⟨.missingTool, by simp [validate_and_build, hg, truthy], rfl⟩
      | cons c cs =>
        have hnone : plLookup wl.tools (c :: cs) = none := by
          cases hp : plLookup wl.tools (c :: cs) with
          | none => rfl
          | some t => exact absurd ⟨c :: cs, hg, by simp [hp]⟩ h
        exact ⟨.unknownTool (c :: cs),
          by simp [validate_and_build, hg, truthy, hnone], rfl⟩

/-- Witness for C2 at a concrete input: the tool `nmap` is not declared by
the (spec-modelled) policy document, so the action is rejected at tool
resolution. -/
theorem validator_unknown_tool_rejects_witness :
    ∃ e, validate_and_build specPolicy
        (.obj [(("tool").data, .str (("nmap").data))]) = .error e ∧
      isToolResolutionErr e = true := by
  apply validator_unknown_tool_rejects
  rintro ⟨s, hs, hk⟩
  have h0 : objGet [(("tool").data, Value.str (("nmap").data))] (("tool").data) =
      some (.str (("nmap").data)) := rfl
  rw [h0] at hs
  injection hs with hs2
  injection hs2 with hs3
  rw [← hs3] at hk
  revert hk
  decide

/-- C3 (failing-input evaluation): with the parameters given at top level and
no nested `params` mapping, `validate_and_build` resolves the parameter
source to the empty dict (the `{}` default of `action.get("params", {})`
passes the `isinstance(params, dict)` test), ignores the top-level `target`,
and rejects with a missing-parameter error; the very same parameters in
nested form are accepted and build `ping -c 3 10.0.0.5`. -/
theorem validator_toplevel_params_ignored :
    validate_and_build specPolicy pingActionTopLevel =
      .error (.missingParam (("target").data)) ∧
    validate_and_build specPolicy pingActionNested =
      .ok ((("ping -c 3 10.0.0.5").data),
        ⟨("ping").data, false,
         ("ping -c 3 ").data ++ lbrace :: ("target").data ++ [rbrace],
         [(("target").data, ("10.0.0.5").data)]⟩) :=
  ⟨rfl, rfl⟩

theorem splitOnChar_ne_nil (sep : Char) (s : Str) : splitOnChar sep s ≠ [] := by
  cases s with
  | nil => simp [splitOnChar]
  | cons c rest =>
    unfold splitOnChar
    split
    · simp
    · split <;> simp

theorem splitOnChar_of_no_sep {sep : Char} {s : Str} (h : ∀ c ∈ s, c ≠ sep) :
    splitOnChar sep s = [s] := by
  induction s with
  | nil => rfl
  | cons c rest ih =>
    have hc : c ≠ sep := h c (List.mem_cons_self ..)
    have ih2 := ih (fun x hx => h x (List.mem_cons_of_mem _ hx))
    simp [splitOnChar, hc, ih2]

theorem splitOnChar_append_sep {sep : Char} {p rest : Str} (h : ∀ c ∈ p, c ≠ sep) :
    splitOnChar sep (p ++ sep :: rest) = p :: splitOnChar sep rest := by
  induction p with
  | nil => simp [splitOnChar]
  | cons c pt ih =>
    have hc : c ≠ sep := h c (List.mem_cons_self ..)
    have ih2 := ih (fun x hx => h x (List.mem_cons_of_mem _ hx))
    simp [splitOnChar, hc, ih2]

theorem mem_of_splitOnChar {sep : Char} {s : Str} {c : Char} (hc : c ∈ s) :
    c = sep ∨ ∃ part ∈ splitOnChar sep s, c ∈ part := by
  induction s with
  | nil => cases hc
  | cons x rest ih =>
    rcases List.mem_cons.mp hc with rfl | hmem
    · by_cases hx : c = sep
      · exact Or.inl hx
      · right
        cases hs : splitOnChar sep rest with
        | nil => exact absurd hs (splitOnChar_ne_nil sep rest)
        | cons p ps => exact ⟨c :: p, by simp [splitOnChar, hx, hs], List.mem_cons_self ..⟩
    · rcases ih hmem with h | ⟨part, hp, hcp⟩
      · exact Or.inl h
      · right
        by_cases hx : x = sep
        · exact ⟨part, by simp [splitOnChar, hx, List.mem_cons, hp], hcp⟩
        · cases hs : splitOnChar sep rest with
          | nil => exact absurd hs (splitOnChar_ne_nil sep rest)
          | cons p ps =>
            rw [hs] at hp
            rcases List.mem_cons.mp hp with rfl | hps
            · exact ⟨x :: part, by simp [splitOnChar, hx, hs], List.mem_cons_of_mem _ hcp⟩
            · exact ⟨part, by simp [splitOnChar, hx, hs, List.mem_cons, hps], hcp⟩

theorem digitsToNat_foldl (s : Str) (acc : Nat) :
    s.foldl (fun a c => 10 * a + (c.toNat - 48)) acc =
    acc * 10 ^ s.length + digitsToNat s := by
  induction s generalizing acc with
  | nil => simp [digitsToNat]
  | cons c rest ih =>
    simp only [List.foldl_cons, List.length_cons, digitsToNat]
    rw [ih (10 * acc + (c.toNat - 48)), ih (10 * 0 + (c.toNat - 48))]
    ring

theorem digitsToNat_cons (c : Char) (rest : Str) :
    digitsToNat (c :: rest) = (c.toNat - 48) * 10 ^ rest.length + digitsToNat rest := by
  show List.foldl _ 0 _ = _
  rw [List.foldl_cons, digitsToNat_foldl]
  ring_nf

theorem canonOctet_length_le {p : Str} (h : CanonOctet p) : p.length ≤ 3 := by
  by_contra hlen
  push_neg at hlen
  obtain ⟨hne, hdig, hlead, hval⟩ := h
  cases p with
  | nil => exact hne rfl
  | cons c rest =>
    have hcd : isDigitCh c = true := hdig c (List.mem_cons_self ..)
    by_cases h48 : c.toNat = 48
    · have hl1 : (c :: rest).length = 1 := hlead c rfl h48
      simp only [List.length_cons] at hl1 hlen
      omega
    · have h49 : 49 ≤ c.toNat ∧ c.toNat ≤ 57 := by
        unfold isDigitCh at hcd
        simp at hcd
        omega
      have hge : 10 ^ rest.length ≤ digitsToNat (c :: rest) := by
        rw [digitsToNat_cons]
        have h1 : 1 ≤ c.toNat - 48 := by omega
        calc 10 ^ rest.length = 1 * 10 ^ rest.length := by ring
        _ ≤ (c.toNat - 48) * 10 ^ rest.length := Nat.mul_le_mul_right _ h1
        _ ≤ _ := Nat.le_add_right _ _
      have hlen2 : 3 ≤ rest.length := by
        simp at hlen
        omega
      have hpow : 10 ^ 3 ≤ 10 ^ rest.length := Nat.pow_le_pow_right (by omega) hlen2
      have : (1000 : Nat) ≤ digitsToNat (c :: rest) := by
        calc (1000 : Nat) = 10 ^ 3 := by norm_num
        _ ≤ 10 ^ rest.length := hpow
        _ ≤ _ := hge
      omega

theorem canonOctet_parseOctet {p : Str} (h : CanonOctet p) :
    (parseOctet p).isSome = true := by
  have hlen := canonOctet_length_le h
  obtain ⟨hne, hdig, hlead, hval⟩ := h
  unfold parseOctet
  split_ifs with h1 h2 h3 h4
  · exact absurd (List.isEmpty_iff.mp h1) hne
  · rw [List.all_eq_true.mpr hdig] at h2
    simp at h2
  · exact absurd h3 (by omega)
  · obtain ⟨hh, hl⟩ := h4
    exact absurd (hlead '0' hh (by decide)) hl
  · rfl

theorem parseOctet_props {p : Str} (h : (parseOctet p).isSome = true) :
    (∀ c ∈ p, isDigitCh c = true) ∧ digitsToNat p ≤ 255 := by
  unfold parseOctet at h
  split_ifs at h with h1 h2 h3 h4 h5
  · cases h
  · cases h
  · cases h
  · cases h
  · refine ⟨?_, h5⟩
    intro c hc
    have h2b : p.all isDigitCh = true := by
      cases hall : p.all isDigitCh with
      | true => rfl
      | false => exact absurd (by rw [hall]; rfl) h2
    exact (List.all_eq_true.mp h2b) c hc
  · cases h

theorem isValidIp_true_elim {s : Str} (h : is_valid_ip s = true) :
    ∃ a b c d, splitOnChar '.' s = [a, b, c, d] ∧
      (parseOctet a).isSome = true ∧ (parseOctet b).isSome = true ∧
      (parseOctet c).isSome = true ∧ (parseOctet d).isSome = true := by
  unfold is_valid_ip at h
  split at h
  · next a b c d heq =>
    refine ⟨a, b, c, d, heq, ?_⟩
    simp only [Bool.and_eq_true] at h
    exact ⟨h.1.1.1, h.1.1.2, h.1.2, h.2⟩
  · cases h

theorem isValidIp_of_dottedQuad {s : Str} (h : IsDottedQuad s) :
    is_valid_ip s = true := by
  obtain ⟨p1, p2, p3, p4, h1, h2, h3, h4, rfl⟩ := h
  have nd : ∀ {p : Str}, CanonOctet p → ∀ c ∈ p, c ≠ '.' := by
    intro p hp c hc heq
    subst heq
    exact absurd (hp.2.1 _ hc) (by decide)
  have hsplit : splitOnChar '.' (p1 ++ '.' :: (p2 ++ '.' :: (p3 ++ '.' :: p4))) =
      [p1, p2, p3, p4] := by
    rw [splitOnChar_append_sep (nd h1), splitOnChar_append_sep (nd h2),
        splitOnChar_append_sep (nd h3), splitOnChar_of_no_sep (nd h4)]
  unfold is_valid_ip
  rw [hsplit]
  simp [canonOctet_parseOctet h1, canonOctet_parseOctet h2,
        canonOctet_parseOctet h3, canonOctet_parseOctet h4]

theorem isValidIp_bad_char {s : Str} {c : Char} (hc : c ∈ s)
    (hd : isDigitCh c = false) (hdot : c ≠ '.') : is_valid_ip s = false := by
  by_contra hv
  rw [Bool.not_eq_false] at hv
  obtain ⟨a, b, d, e, hsp, pa, pb, pd, pe⟩ := isValidIp_true_elim hv
  rcases @mem_of_splitOnChar '.' s c hc with h | ⟨part, hpart, hcp⟩
  · exact hdot h
  · rw [hsp] at hpart
    have hsome : (parseOctet part).isSome = true := by
      rcases List.mem_cons.mp hpart with rfl | hpart2
      · exact pa
      rcases List.mem_cons.mp hpart2 with rfl | hpart3
      · exact pb
      rcases List.mem_cons.mp hpart3 with rfl | hpart4
      · exact pd
      rcases List.mem_cons.mp hpart4 with rfl | hpart5
      · exact pe
      · cases hpart5
    have := (parseOctet_props hsome).1 c hcp
    simp [this] at hd

theorem isValidIp_big_octet {s : Str} {p : Str} (hp : p ∈ splitOnChar '.' s)
    (hbig : 255 < digitsToNat p) : is_valid_ip s = false := by
  by_contra hv
  rw [Bool.not_eq_false] at hv
  obtain ⟨a, b, c, d, hsp, pa, pb, pc, pd⟩ := isValidIp_true_elim hv
  rw [hsp] at hp
  have : digitsToNat p ≤ 255 := by
    rcases List.mem_cons.mp hp with rfl | hp2
    · exact (parseOctet_props pa).2
    rcases List.mem_cons.mp hp2 with rfl | hp3
    · exact (parseOctet_props pb).2
    rcases List.mem_cons.mp hp3 with rfl | hp4
    · exact (parseOctet_props pc).2
    rcases List.mem_cons.mp hp4 with rfl | hp5
    · exact (parseOctet_props pd).2
    · cases hp5
  omega

/-- C4: the ip-address parameter type check accepts every valid dotted IPv4
string (four canonical decimal octets, each at most 255); it rejects every
string containing a character that is neither a digit nor a dot, and every
string one of whose dot-separated fields is a digit string whose value
exceeds 255; and the ip branch of `validate_and_build`'s parameter validation
rejects every non-string value. -/
theorem ip_type_check_correct :
    (∀ s, IsDottedQuad s → is_valid_ip s = true) ∧
    (∀ (s : Str) (c : Char), c ∈ s → isDigitCh c = false → c ≠ '.' →
      is_valid_ip s = false) ∧
    (∀ (s p : Str), p ∈ splitOnChar '.' s → 255 < digitsToNat p →
      is_valid_ip s = false) ∧
    (∀ (ps : ParamSpec) (v : Value), ps.ptype = ("ip").data →
      (∀ t, v ≠ .str t) → validateOne ps v = .error (.invalidIP ps.name)) := by
  refine ⟨fun s h => isValidIp_of_dottedQuad h,
          fun s c hc hd hdot => isValidIp_bad_char hc hd hdot,
          fun s p hp hbig => isValidIp_big_octet hp hbig,
          fun ps v hty hv => ?_⟩
  unfold validateOne
  rw [if_pos hty]
  cases v with
  | str t => exact absurd rfl (hv t)
  | int n => rfl
  | bool b => rfl
  | null => rfl
  | pyFloat a b c => rfl
  | floatSpecial a => rfl
  | list xs => rfl
  | obj kvs => rfl

/-- Witness for C4 at concrete inputs: `192.168.60.3` is accepted;
`10,0,0,5` (comma instead of dot) is rejected; `300.1.2.3` (field above 255)
is rejected; and a non-string value for an ip parameter is rejected. -/
theorem ip_type_check_correct_witness :
    is_valid_ip (("192.168.60.3").data) = true ∧
    is_valid_ip (("10,0,0,5").data) = false ∧
    is_valid_ip (("300.1.2.3").data) = false ∧
    validateOne { name := ("target").data, ptype := ("ip").data } (.int 5) =
      .error (.invalidIP (("target").data)) := by
  refine ⟨?_, ?_, ?_, ?_⟩
  · exact ip_type_check_correct.1 _
      ⟨("192").data, ("168").data, ("60").data, ("3").data,
       ⟨by decide, by decide, by decide, by decide⟩,
       ⟨by decide, by decide, by decide, by decide⟩,
       ⟨by decide, by decide, by decide, by decide⟩,
       ⟨by decide, by decide, by decide, by decide⟩, rfl⟩
  · exact ip_type_check_correct.2.1 _ ',' (by decide) (by decide) (by decide)
  · exact ip_type_check_correct.2.2.1 _ (("300").data) (by decide) (by decide)
  · exact ip_type_check_correct.2.2.2 _ (.int 5) rfl (fun t h => Value.noConfusion h)

theorem replaceAllF_congr (pat rep : Str) :
    ∀ (f : Nat) (s : Str) (g : Nat), s.length ≤ f → s.length ≤ g →
      replaceAllF f pat rep s = replaceAllF g pat rep s := by
  intro f
  induction f with
  | zero =>
    intro s g h1 _
    have hs : s = [] := List.eq_nil_of_length_eq_zero (by omega)
    subst hs
    cases g <;> rfl
  | succ f ih =>
    intro s g h1 h2
    cases s with
    | nil => cases g <;> rfl
    | cons c rest =>
      cases g with
      | zero => simp at h2
      | succ g2 =>
        show replaceAllF (f + 1) pat rep (c :: rest) = replaceAllF (g2 + 1) pat rep (c :: rest)
        unfold replaceAllF
        dsimp only
        by_cases hp : pat ≠ [] ∧ pat.isPrefixOf (c :: rest) = true
        · rw [if_pos hp, if_pos hp]
          have hp1 : 1 ≤ pat.length := by
            cases hpt : pat with
            | nil => exact absurd hpt hp.1
            | cons a b => simp
          have hlen : ((c :: rest).drop pat.length).length ≤ f ∧
              ((c :: rest).drop pat.length).length ≤ g2 := by
            simp only [List.length_drop, List.length_cons] at *
            omega
          rw [ih _ g2 hlen.1 hlen.2]
        · rw [if_neg hp, if_neg hp]
          have hr1 : rest.length ≤ f := by simp at h1; omega
          have hr2 : rest.length ≤ g2 := by simp at h2; omega
          rw [ih rest g2 hr1 hr2]

theorem replaceAll_cons (pat rep : Str) (c : Char) (rest : Str) :
    replaceAll pat rep (c :: rest) =
      if pat ≠ [] ∧ pat.isPrefixOf (c :: rest) = true then
        rep ++ replaceAll pat rep ((c :: rest).drop pat.length)
      else c :: replaceAll pat rep rest := by
  show replaceAllF (rest.length + 1) pat rep (c :: rest) = _
  unfold replaceAllF
  dsimp only
  by_cases hp : pat ≠ [] ∧ pat.isPrefixOf (c :: rest) = true
  · rw [if_pos hp, if_pos hp]
    have hp1 : 1 ≤ pat.length := by
      cases hpt : pat with
      | nil => exact absurd hpt hp.1
      | cons a b => simp
    have h1 : ((c :: rest).drop pat.length).length ≤ rest.length := by
      simp only [List.length_drop, List.length_cons]
      omega
    unfold replaceAll
    rw [replaceAllF_congr pat rep rest.length _ _ h1 (le_refl _)]
  · rw [if_neg hp, if_neg hp]
    rfl

theorem replaceAll_braceFree_head (pat2 rep : Str) {chunk t : Str}
    (hb : BraceFree chunk) :
    replaceAll (lbrace :: pat2) rep (chunk ++ t) =
      chunk ++ replaceAll (lbrace :: pat2) rep t := by
  induction chunk with
  | nil => simp
  | cons c ct ih =>
    have hc : c ≠ lbrace := (hb c (List.mem_cons_self ..)).1
    rw [List.cons_append, replaceAll_cons, if_neg]
    · rw [ih (fun x hx => hb x (List.mem_cons_of_mem _ hx))]
      rfl
    · rintro ⟨-, hpre⟩
      rw [List.isPrefixOf_iff_prefix] at hpre
      exact hc ((List.cons_prefix_cons.mp hpre).1.symm)

theorem word_group_head {k n t : Str}
    (hkw : ∀ c ∈ k, isWordChar c = true) (hnw : ∀ c ∈ n, isWordChar c = true)
    (h : (k ++ [rbrace]) <+: (n ++ rbrace :: t)) : k = n := by
  induction k generalizing n with
  | nil =>
    cases n with
    | nil => rfl
    | cons c n2 =>
      rw [List.nil_append] at h
      have hc := (List.cons_prefix_cons.mp h).1
      have := hnw c (List.mem_cons_self ..)
      rw [← hc] at this
      exact absurd this (by decide)
  | cons a k2 ih =>
    cases n with
    | nil =>
      rw [List.nil_append, List.cons_append] at h
      have hc := (List.cons_prefix_cons.mp h).1
      have := hkw a (List.mem_cons_self ..)
      rw [hc] at this
      exact absurd this (by decide)
    | cons c n2 =>
      rw [List.cons_append, List.cons_append] at h
      obtain ⟨rfl, h2⟩ := List.cons_prefix_cons.mp h
      rw [ih (fun x hx => hkw x (List.mem_cons_of_mem _ hx))
            (fun x hx => hnw x (List.mem_cons_of_mem _ hx)) h2]

theorem replaceAll_ph {k rep n t : Str}
    (hkw : ∀ c ∈ k, isWordChar c = true)
    (hnw : ∀ c ∈ n, isWordChar c = true) :
    replaceAll (lbrace :: (k ++ [rbrace])) rep (lbrace :: (n ++ rbrace :: t)) =
      if k = n then rep ++ replaceAll (lbrace :: (k ++ [rbrace])) rep t
      else lbrace :: (n ++ rbrace :: replaceAll (lbrace :: (k ++ [rbrace])) rep t) := by
  by_cases hkn : k = n
  · subst hkn
    rw [if_pos rfl, replaceAll_cons, if_pos]
    · congr 1
      have hshape : lbrace :: (k ++ rbrace :: t) = (lbrace :: (k ++ [rbrace])) ++ t := by
        simp
      rw [hshape, show (lbrace :: (k ++ [rbrace])).length =
            (lbrace :: (k ++ [rbrace])).length from rfl, List.drop_left]
    · refine ⟨by simp, ?_⟩
      rw [List.isPrefixOf_iff_prefix]
      refine List.cons_prefix_cons.mpr ⟨rfl, ?_⟩
      have : k ++ rbrace :: t = (k ++ [rbrace]) ++ t := by simp
      rw [this]
      exact List.prefix_append _ _
  · rw [if_neg hkn, replaceAll_cons, if_neg]
    · have hbn : BraceFree n := fun c hc => isWordChar_ne_braces (hnw c hc)
      congr 1
      rw [replaceAll_braceFree_head _ _ hbn, replaceAll_cons, if_neg]
      rintro ⟨-, hpre⟩
      rw [List.isPrefixOf_iff_prefix] at hpre
      exact absurd ((List.cons_prefix_cons.mp hpre).1) (by decide)
    · rintro ⟨-, hpre⟩
      rw [List.isPrefixOf_iff_prefix] at hpre
      obtain ⟨-, h2⟩ := List.cons_prefix_cons.mp hpre
      exact hkn (word_group_head hkw hnw h2)

theorem flatSegs_nil : flatSegs [] = [] := rfl

theorem flatSegs_cons (g : Seg) (L : List Seg) :
    flatSegs (g :: L) = flatSeg g ++ flatSegs L := by
  simp [flatSegs]

theorem substSeg_ok {k v : Str} (hv : BraceFree v) {g : Seg} (hg : SegOk g) :
    SegOk (substSeg k v g) := by
  cases g with
  | lit s => exact hg
  | ph n =>
    unfold substSeg
    dsimp only
    by_cases hn : n = k
    · rw [if_pos hn]
      exact hv
    · rw [if_neg hn]
      exact hg

theorem replaceAll_flatSegs {k v : Str}
    (hkw : ∀ c ∈ k, isWordChar c = true)
    {L : List Seg} (hL : ∀ g ∈ L, SegOk g) :
    replaceAll (lbrace :: (k ++ [rbrace])) v (flatSegs L) =
      flatSegs (L.map (substSeg k v)) := by
  induction L with
  | nil => rfl
  | cons g L2 ih =>
    have hg := hL g (List.mem_cons_self ..)
    have hL2 : ∀ x ∈ L2, SegOk x := fun x hx => hL x (List.mem_cons_of_mem _ hx)
    cases g with
    | lit s =>
      rw [flatSegs_cons, List.map_cons, flatSegs_cons]
      show replaceAll _ _ (s ++ _) = s ++ _
      rw [replaceAll_braceFree_head _ _ hg, ih hL2]
    | ph n =>
      obtain ⟨hn, hnw⟩ := hg
      rw [flatSegs_cons, List.map_cons, flatSegs_cons]
      have hshape : flatSeg (.ph n) ++ flatSegs L2 = lbrace :: (n ++ rbrace :: flatSegs L2) := by
        simp [flatSeg]
      rw [hshape, replaceAll_ph hkw hnw]
      by_cases hkn : k = n
      · rw [if_pos hkn, ih hL2]
        have : substSeg k v (.ph n) = .lit v := by
          unfold substSeg
          dsimp only
          rw [if_pos hkn.symm]
        rw [this]
        rfl
      · rw [if_neg hkn, ih hL2]
        have : substSeg k v (.ph n) = .ph n := by
          unfold substSeg
          dsimp only
          rw [if_neg (fun hh => hkn hh.symm)]
        rw [this]
        simp [flatSeg]

theorem renderTemplate_wellBraced {template : Str}
    {validated : List (Str × Str)}
    (hkv : ∀ kv ∈ validated, kv.1 ≠ [] ∧ (∀ c ∈ kv.1, isWordChar c = true) ∧ BraceFree kv.2)
    (hw : WellBraced template) :
    WellBraced (renderTemplate template validated) := by
  induction validated generalizing template with
  | nil => exact hw
  | cons kv rest ih =>
    obtain ⟨L, hL, rfl⟩ := hw
    obtain ⟨-, hkw, hv⟩ := hkv kv (List.mem_cons_self ..)
    have hstep : replaceAll (lbrace :: (kv.1 ++ [rbrace])) kv.2 (flatSegs L) =
        flatSegs (L.map (substSeg kv.1 kv.2)) := replaceAll_flatSegs hkw hL
    have hrt : renderTemplate (flatSegs L) (kv :: rest) =
        renderTemplate (flatSegs (L.map (substSeg kv.1 kv.2))) rest := by
      show List.foldl _ _ (kv :: rest) = List.foldl _ _ rest
      rw [List.foldl_cons, ← hstep]
      simp [List.cons_append]
    rw [hrt]
    exact ih (fun x hx => hkv x (List.mem_cons_of_mem _ hx))
      ⟨L.map (substSeg kv.1 kv.2),
       fun g hg => by
         obtain ⟨g0, hg0, rfl⟩ := List.mem_map.mp hg
         exact substSeg_ok hv (hL g0 hg0), rfl⟩

theorem stripGo_none_cons (c : Char) (rest : Str) :
    stripGo none (c :: rest) =
      if c = lbrace then stripGo (some [c]) rest else c :: stripGo none rest := rfl

theorem stripGo_some_cons (pend : Str) (c : Char) (rest : Str) :
    stripGo (some pend) (c :: rest) =
      if isWordChar c = true then stripGo (some (c :: pend)) rest
      else if c = rbrace ∧ 2 ≤ pend.length then stripGo none rest
      else pend.reverse ++
        (if c = lbrace then stripGo (some [c]) rest else c :: stripGo none rest) := rfl

theorem stripGo_braceFree_chunk {chunk t : Str} (hb : BraceFree chunk) :
    stripGo none (chunk ++ t) = chunk ++ stripGo none t := by
  induction chunk with
  | nil => rfl
  | cons c ct ih =>
    have hc : c ≠ lbrace := (hb c (List.mem_cons_self ..)).1
    rw [List.cons_append, stripGo_none_cons,
        if_neg hc, ih (fun x hx => hb x (List.mem_cons_of_mem _ hx))]
    rfl

theorem stripGo_pend_group {n : Str} (hnw : ∀ c ∈ n, isWordChar c = true) :
    ∀ (pend : Str) (t : Str), 1 ≤ pend.length → 2 ≤ pend.length + n.length →
    stripGo (some pend) (n ++ rbrace :: t) = stripGo none t := by
  induction n with
  | nil =>
    intro pend t h1 h2
    rw [List.nil_append, stripGo_some_cons,
        if_neg (by rw [show isWordChar rbrace = false from rfl]; exact Bool.false_ne_true),
        if_pos ⟨rfl, by simpa using h2⟩]
  | cons c n2 ih =>
    intro pend t h1 h2
    have hc : isWordChar c = true := hnw c (List.mem_cons_self ..)
    rw [List.cons_append, stripGo_some_cons, if_pos hc]
    apply ih (fun x hx => hnw x (List.mem_cons_of_mem _ hx))
    · simp
    · simp at h2 ⊢
      omega

theorem stripGo_flatSegs {L : List Seg} (hL : ∀ g ∈ L, SegOk g) :
    BraceFree (stripGo none (flatSegs L)) := by
  induction L with
  | nil => intro c hc; cases hc
  | cons g L2 ih =>
    have hg := hL g (List.mem_cons_self ..)
    have hL2 : ∀ x ∈ L2, SegOk x := fun x hx => hL x (List.mem_cons_of_mem _ hx)
    cases g with
    | lit s =>
      rw [flatSegs_cons]
      show BraceFree (stripGo none (s ++ flatSegs L2))
      rw [stripGo_braceFree_chunk hg]
      intro c hc
      rcases List.mem_append.mp hc with h | h
      · exact hg c h
      · exact ih hL2 c h
    | ph n =>
      obtain ⟨hn, hnw⟩ := hg
      rw [flatSegs_cons]
      have hshape : flatSeg (.ph n) ++ flatSegs L2 = lbrace :: (n ++ rbrace :: flatSegs L2) := by
        simp [flatSeg]
      rw [hshape]
      show BraceFree (stripGo none (lbrace :: (n ++ rbrace :: flatSegs L2)))
      have h0 : stripGo none (lbrace :: (n ++ rbrace :: flatSegs L2)) =
          stripGo (some [lbrace]) (n ++ rbrace :: flatSegs L2) := by
        rw [stripGo_none_cons, if_pos rfl]
      rw [h0, stripGo_pend_group hnw [lbrace] _ (by simp) (by
        have : 1 ≤ n.length := by
          cases n with
          | nil => exact absurd rfl hn
          | cons a b => simp
        simp
        omega)]
      exact ih hL2

theorem cwGo_mem {c : Char} : ∀ {b : Bool} {s : Str}, c ∈ cwGo b s → c = ' ' ∨ c ∈ s := by
  intro b s
  induction s generalizing b with
  | nil => intro h; cases h
  | cons x rest ih =>
    intro h
    unfold cwGo at h
    by_cases hx : isSpaceCh x = true
    · rw [if_pos hx] at h
      cases hb : b with
      | true =>
        rw [hb] at h
        simp only [if_pos rfl] at h
        rcases ih h with h2 | h2
        · exact Or.inl h2
        · exact Or.inr (List.mem_cons_of_mem _ h2)
      | false =>
        rw [hb] at h
        simp only [Bool.false_eq_true, if_neg] at h
        rcases List.mem_cons.mp h with rfl | h2
        · exact Or.inl rfl
        · rcases ih h2 with h3 | h3
          · exact Or.inl h3
          · exact Or.inr (List.mem_cons_of_mem _ h3)
    · rw [if_neg hx] at h
      rcases List.mem_cons.mp h with rfl | h2
      · exact Or.inr (List.mem_cons_self ..)
      · rcases ih h2 with h3 | h3
        · exact Or.inl h3
        · exact Or.inr (List.mem_cons_of_mem _ h3)

theorem pyStrip_mem {c : Char} {s : Str} (h : c ∈ pyStrip s) : c ∈ s := by
  unfold pyStrip at h
  rw [List.mem_reverse] at h
  have h2 := @List.dropWhile_sublist Char ((s.dropWhile isSpaceCh).reverse) isSpaceCh
  have h3 := h2.mem h
  rw [List.mem_reverse] at h3
  exact (List.dropWhile_sublist isSpaceCh).mem h3

theorem normWs_braceFree {s : Str} (h : BraceFree s) : BraceFree (normWs s) := by
  intro c hc
  have hc2 := pyStrip_mem hc
  rcases cwGo_mem hc2 with rfl | hc3
  · exact ⟨by decide, by decide⟩
  · exact h c hc3

theorem placeholderFree_of_braceFree {s : Str} (h : BraceFree s) : PlaceholderFree s := by
  rintro ⟨a, w, b, rfl, -, -⟩
  exact (h lbrace (by simp)).1 rfl

theorem isValidIp_chars {s : Str} (h : is_valid_ip s = true) :
    ∀ c ∈ s, isDigitCh c = true ∨ c = '.' := by
  intro c hc
  by_contra hcon
  push_neg at hcon
  obtain ⟨hd, hdot⟩ := hcon
  have hd2 : isDigitCh c = false := by
    cases hh : isDigitCh c
    · rfl
    · exact absurd hh hd
  rw [isValidIp_bad_char hc hd2 hdot] at h
  cases h

theorem digitCh_isDigit (d : Nat) : isDigitCh (digitCh d) = true := by
  unfold digitCh
  split <;> decide

theorem natCharsF_digits : ∀ (f n : Nat), ∀ c ∈ natCharsF f n, isDigitCh c = true := by
  intro f
  induction f with
  | zero => intro n c hc; cases hc
  | succ f ih =>
    intro n c hc
    unfold natCharsF at hc
    by_cases h10 : n < 10
    · rw [if_pos h10] at hc
      simp at hc
      subst hc
      exact digitCh_isDigit n
    · rw [if_neg h10] at hc
      rcases List.mem_append.mp hc with h | h
      · exact ih _ c h
      · simp at h
        subst h
        exact digitCh_isDigit _

theorem intRepr_braceFree (n : Int) : BraceFree (intRepr n) := by
  intro c hc
  unfold intRepr at hc
  by_cases hn : n < 0
  · rw [if_pos hn] at hc
    rcases List.mem_cons.mp hc with rfl | h
    · exact ⟨by decide, by decide⟩
    · exact isDigitCh_ne_braces (natCharsF_digits _ _ c h)
  · rw [if_neg hn] at hc
    exact isDigitCh_ne_braces (natCharsF_digits _ _ c hc)

theorem isAlnumLabelCh_ne_braces {c : Char} (h : isAlnumLabelCh c = true) :
    c ≠ lbrace ∧ c ≠ rbrace := by
  unfold isAlnumLabelCh at h
  rcases Bool.or_eq_true_iff.mp h with hw | hd
  · exact isWordChar_ne_braces hw
  · rw [of_decide_eq_true hd]
    exact ⟨by decide, by decide⟩

theorem isPortsCh_ne_braces {c : Char} (h : isPortsCh c = true) :
    c ≠ lbrace ∧ c ≠ rbrace := by
  unfold isPortsCh at h
  rcases Bool.or_eq_true_iff.mp h with h1 | hd
  · rcases Bool.or_eq_true_iff.mp h1 with h2 | hd2
    · exact isDigitCh_ne_braces h2
    · rw [of_decide_eq_true hd2]
      exact ⟨by decide, by decide⟩
  · rw [of_decide_eq_true hd]
    exact ⟨by decide, by decide⟩

theorem isDefaultSafeCh_ne_braces {c : Char} (h : isDefaultSafeCh c = true) :
    c ≠ lbrace ∧ c ≠ rbrace := by
  unfold isDefaultSafeCh at h
  rcases Bool.or_eq_true_iff.mp h with h1 | hd
  · rcases Bool.or_eq_true_iff.mp h1 with h2 | hd2
    · rcases Bool.or_eq_true_iff.mp h2 with h3 | hd3
      · exact isWordChar_ne_braces h3
      · rw [of_decide_eq_true hd3]
        exact ⟨by decide, by decide⟩
    · rw [of_decide_eq_true hd2]
      exact ⟨by decide, by decide⟩
  · rw [of_decide_eq_true hd]
    exact ⟨by decide, by decide⟩

theorem checkMembership_braceFree {raw : Value} {allowed : List Str} {e : VErr} {v : Str}
    (hall : ∀ x ∈ allowed, BraceFree x)
    (h : checkMembership raw allowed e = .ok v) : BraceFree v := by
  unfold checkMembership at h
  split at h
  case _ s =>
    split_ifs at h with hm
    injection h with h
    subst h
    exact hall _ hm
  all_goals cases h

theorem sanitize_int_braceFree {raw : Value} {minv maxv : Option Int} {v : Str}
    (h : sanitize_int raw minv maxv = .ok v) : BraceFree v := by
  unfold sanitize_int at h
  cases hpi : pyToInt raw with
  | none =>
    rw [hpi] at h
    cases h
  | some n =>
    rw [hpi] at h
    have hend : v = intRepr n := by
      cases minv with
      | some lo =>
        dsimp only at h
        by_cases hlo : n < lo
        · rw [if_pos hlo] at h
          cases h
        · rw [if_neg hlo] at h
          cases maxv with
          | some hi =>
            dsimp only at h
            by_cases hhi : hi < n
            · rw [if_pos hhi] at h
              cases h
            · rw [if_neg hhi] at h
              injection h with h
              exact h.symm
          | none =>
            dsimp only at h
            injection h with h
            exact h.symm
      | none =>
        dsimp only at h
        cases maxv with
        | some hi =>
          dsimp only at h
          by_cases hhi : hi < n
          · rw [if_pos hhi] at h
            cases h
          · rw [if_neg hhi] at h
            injection h with h
            exact h.symm
        | none =>
          dsimp only at h
          injection h with h
          exact h.symm
    rw [hend]
    exact intRepr_braceFree n

theorem validateOne_braceFree {p : ParamSpec} {raw : Value} {v : Str}
    (hpaths : ∀ x ∈ p.allowed_paths, BraceFree x)
    (hallow : ∀ x ∈ p.allowed, BraceFree x)
    (h : validateOne p raw = .ok v) : BraceFree v := by
  unfold validateOne at h
  split_ifs at h with h1 h2 h3 h4 h5 h6 h7
  · -- ip branch
    split at h
    case _ s =>
      split_ifs at h with hip
      injection h with h
      subst h
      intro c hc
      rcases isValidIp_chars hip c hc with hd | rfl
      · exact isDigitCh_ne_braces hd
      · exact ⟨by decide, by decide⟩
    all_goals cases h
  · -- alnum branch
    unfold sanitize_alnum at h
    split at h
    case _ s =>
      split_ifs at h with ha
      injection h with h
      subst h
      intro c hc
      exact isAlnumLabelCh_ne_braces ((List.all_eq_true.mp ha.2.2) c hc)
    all_goals cases h
  · -- ports branch
    unfold sanitize_ports at h
    split at h
    case _ s =>
      split_ifs at h with ha
      injection h with h
      subst h
      intro c hc
      rcases List.mem_cons.mp hc with rfl | hc2
      · exact ⟨by decide, by decide⟩
      rcases List.mem_cons.mp hc2 with rfl | hc3
      · exact ⟨by decide, by decide⟩
      rcases List.mem_cons.mp hc3 with rfl | hc4
      · exact ⟨by decide, by decide⟩
      · exact isPortsCh_ne_braces ((List.all_eq_true.mp ha.2) c hc4)
    all_goals cases h
  · exact sanitize_int_braceFree h
  · exact checkMembership_braceFree hpaths h
  · exact checkMembership_braceFree hallow h
  · exact checkMembership_braceFree hallow h
  · -- default safe-string branch
    split at h
    case _ s =>
      split_ifs at h with ha
      injection h with h
      subst h
      intro c hc
      exact isDefaultSafeCh_ne_braces ((List.all_eq_true.mp ha.2) c hc)
    all_goals cases h

theorem validateParams_mem :
    ∀ {specs : List ParamSpec} {params : List (Str × Value)} {vs : List (Str × Str)},
      validateParams specs params = .ok vs →
      ∀ kv ∈ vs, ∃ p ∈ specs, kv.1 = p.name ∧ ∃ raw, validateOne p raw = .ok kv.2 := by
  intro specs
  induction specs with
  | nil =>
    intro params vs h kv hkv
    injection h with h
    subst h
    cases hkv
  | cons p rest ih =>
    intro params vs h kv hkv
    unfold validateParams at h
    split at h
    · -- objGet params p.name = none
      split_ifs at h with hreq
      obtain ⟨q, hq, hrest⟩ := ih h kv hkv
      exact ⟨q, List.mem_cons_of_mem _ hq, hrest⟩
    · -- objGet params p.name = some raw
      next raw hraw =>
      cases hv : validateOne p raw with
      | error e =>
        rw [hv] at h
        cases h
      | ok v =>
        rw [hv] at h
        dsimp only at h
        cases hrest : validateParams rest params with
        | error e =>
          rw [hrest] at h
          dsimp only at h
          cases h
        | ok vs2 =>
          rw [hrest] at h
          dsimp only at h
          injection h with h
          subst h
          rcases List.mem_cons.mp hkv with rfl | hkv2
          · exact ⟨p, List.mem_cons_self .., rfl, raw, hv⟩
          · obtain ⟨q, hq, hrest2⟩ := ih hrest _ hkv2
            exact ⟨q, List.mem_cons_of_mem _ hq, hrest2⟩

theorem isSubstr_cons (pat : Str) (c : Char) (rest : Str) :
    isSubstr pat (c :: rest) = (pat.isPrefixOf (c :: rest) || isSubstr pat rest) := rfl

theorem isSubstr_of_occurs {t s : Str} (h : SubstrOccurs t s) : isSubstr t s = true := by
  obtain ⟨a, b, rfl⟩ := h
  induction a with
  | nil =>
    rw [List.nil_append]
    cases ht : t with
    | nil =>
      cases b with
      | nil => rfl
      | cons x bs => rw [List.nil_append, isSubstr_cons]; simp
    | cons x ts =>
      rw [List.cons_append, isSubstr_cons]
      apply Bool.or_eq_true_iff.mpr
      left
      rw [List.isPrefixOf_iff_prefix, ← List.cons_append]
      exact List.prefix_append _ _
  | cons y a2 ih =>
    simp only [List.cons_append]
    rw [isSubstr_cons]
    apply Bool.or_eq_true_iff.mpr
    right
    exact ih

theorem hasWordTokAux_cons (tok : Str) (pw : Bool) (c : Char) (rest : Str) :
    hasWordTokAux tok pw (c :: rest) =
      ((!pw && tok.isPrefixOf (c :: rest) && tailBoundaryOk tok (c :: rest)) ||
       hasWordTokAux tok (isWordChar c) rest) := rfl

theorem hasWordTokAux_intro {tok : Str} (htok : tok ≠ []) :
    ∀ (a : Str) (pw : Bool) (b : Str),
      (a = [] → pw = false) →
      (∀ c, a.getLast? = some c → isWordChar c = false) →
      (∀ c, b.head? = some c → isWordChar c = false) →
      hasWordTokAux tok pw (a ++ tok ++ b) = true := by
  obtain ⟨x, ts, rfl⟩ : ∃ x ts, tok = x :: ts := by
    cases tok with
    | nil => exact absurd rfl htok
    | cons x ts => exact ⟨x, ts, rfl⟩
  intro a
  induction a with
  | nil =>
    intro pw b hpw hlast hhead
    rw [List.nil_append, List.cons_append, hasWordTokAux_cons]
    apply Bool.or_eq_true_iff.mpr
    left
    rw [hpw rfl]
    simp only [Bool.not_false, Bool.true_and, Bool.and_eq_true]
    constructor
    · rw [List.isPrefixOf_iff_prefix, ← List.cons_append]
      exact List.prefix_append _ _
    · unfold tailBoundaryOk
      rw [← List.cons_append,
          show ((x :: ts) ++ b).drop (x :: ts).length = b from List.drop_left _ _]
      cases hb : b with
      | nil => rfl
      | cons d bs =>
        dsimp only
        rw [hhead d (by rw [hb]; rfl)]
        rfl
  | cons y a2 ih =>
    intro pw b hpw hlast hhead
    simp only [List.cons_append]
    rw [hasWordTokAux_cons]
    apply Bool.or_eq_true_iff.mpr
    right
    apply ih (isWordChar y) b
    · intro ha2
      subst ha2
      exact hlast y rfl
    · intro c hc
      apply hlast c
      cases a2 with
      | nil => cases hc
      | cons z zs =>
        rw [List.getLast?_cons_cons]
        exact hc
    · exact hhead

theorem substrOccurs_lower {t s : Str} (ht : toLowerStr t = t) (h : SubstrOccurs t s) :
    SubstrOccurs t (toLowerStr s) := by
  obtain ⟨a, b, rfl⟩ := h
  refine ⟨toLowerStr a, toLowerStr b, ?_⟩
  unfold toLowerStr at ht ⊢
  rw [List.map_append, List.map_append, ht]

theorem wordOccurs_lower {t s : Str} (ht : toLowerStr t = t) (h : WordOccurs t s) :
    WordOccurs t (toLowerStr s) := by
  obtain ⟨a, b, rfl, hlast, hhead⟩ := h
  refine ⟨toLowerStr a, toLowerStr b, ?_, ?_, ?_⟩
  · unfold toLowerStr at ht ⊢
    rw [List.map_append, List.map_append, ht]
  · intro c hc
    unfold toLowerStr at hc
    rw [List.getLast?_map] at hc
    cases ha : a.getLast? with
    | none =>
      rw [ha] at hc
      cases hc
    | some c0 =>
      rw [ha] at hc
      injection hc with hc
      subst hc
      rw [isWordChar_asciiLower]
      exact hlast c0 ha
  · intro c hc
    unfold toLowerStr at hc
    rw [List.head?_map] at hc
    cases hb : b.head? with
    | none =>
      rw [hb] at hc
      cases hc
    | some c0 =>
      rw [hb] at hc
      injection hc with hc
      subst hc
      rw [isWordChar_asciiLower]
      exact hhead c0 hb

theorem assertGo_ok_props {low : Str} :
    ∀ {toks : List Str}, assertNoBlacklistGo low toks = .ok () →
    ∀ tok ∈ toks,
      (tok ≠ [] → tok.all isAlphaCh = true → hasWordTok tok low = false) ∧
      (tok ≠ [] → tok.all isAlphaCh = false → isSubstr tok low = false) := by
  intro toks
  induction toks with
  | nil =>
    intro _ tok htok
    cases htok
  | cons t ts ih =>
    intro h tok htok
    unfold assertNoBlacklistGo at h
    by_cases ht0 : t = []
    · rw [if_pos ht0] at h
      rcases List.mem_cons.mp htok with rfl | hm
      · exact ⟨fun hne _ => absurd ht0 hne, fun hne _ => absurd ht0 hne⟩
      · exact ih h tok hm
    · rw [if_neg ht0] at h
      by_cases hta : t ≠ [] ∧ t.all isAlphaCh = true
      · rw [if_pos hta] at h
        by_cases hw : hasWordTok t low = true
        · rw [if_pos hw] at h
          cases h
        · rw [if_neg hw] at h
          have hwf : hasWordTok t low = false := by
            cases hww : hasWordTok t low
            · rfl
            · exact absurd hww hw
          rcases List.mem_cons.mp htok with rfl | hm
          · exact ⟨fun _ _ => hwf, fun _ hfa => by rw [hta.2] at hfa; cases hfa⟩
          · exact ih h tok hm
      · rw [if_neg hta] at h
        by_cases hs : isSubstr t low = true
        · rw [if_pos hs] at h
          cases h
        · rw [if_neg hs] at h
          have hsf : isSubstr t low = false := by
            cases hss : isSubstr t low
            · rfl
            · exact absurd hss hs
          rcases List.mem_cons.mp htok with rfl | hm
          · exact ⟨fun hne hall => absurd ⟨hne, hall⟩ hta, fun _ _ => hsf⟩
          · exact ih h tok hm

theorem assertNoBlacklist_sound {cmd : Str} (h : assertNoBlacklist cmd = .ok ()) :
    NoBlacklistTokens cmd := by
  have hp := @assertGo_ok_props (toLowerStr cmd) BLACKLIST_TOKENS h
  constructor
  · intro t ht hocc
    have hgen : ∀ tok : Str, tok ∈ BLACKLIST_TOKENS → tok ≠ [] →
        tok.all isAlphaCh = false → toLowerStr tok = tok → SubstrOccurs tok cmd → False := by
      intro tok hmem hne hal hlo hoc
      have hsub := isSubstr_of_occurs (substrOccurs_lower hlo hoc)
      rw [(hp tok hmem).2 hne hal] at hsub
      cases hsub
    simp only [symbolTokens, List.mem_cons, List.not_mem_nil, or_false] at ht
    rcases ht with rfl | rfl | rfl | rfl | rfl | rfl | rfl <;>
      exact hgen _ (by decide) (by decide) (by decide) (by decide) hocc
  · intro t ht hocc
    have hgen : ∀ tok : Str, tok ∈ BLACKLIST_TOKENS → tok ≠ [] →
        tok.all isAlphaCh = true → toLowerStr tok = tok → WordOccurs tok cmd → False := by
      intro tok hmem hne hal hlo hoc
      obtain ⟨a, b, hdecomp, hlast, hhead⟩ := wordOccurs_lower hlo hoc
      have hw : hasWordTok tok (toLowerStr cmd) = true := by
        unfold hasWordTok
        rw [hdecomp]
        exact hasWordTokAux_intro hne a false b (fun _ => rfl) hlast hhead
      rw [(hp tok hmem).1 hne hal] at hw
      cases hw
    simp only [wordTokens, List.mem_cons, List.not_mem_nil, or_false] at ht
    rcases ht with rfl | rfl | rfl <;>
      exact hgen _ (by decide) (by decide) (by decide) (by decide) hocc

theorem plLookup_mem {tools : List (Str × ToolPolicy)} {k : Str} {tm : ToolPolicy}
    (h : plLookup tools k = some tm) : (k, tm) ∈ tools := by
  unfold plLookup at h
  cases hf : tools.find? (fun kv => decide (kv.1 = k)) with
  | none =>
    rw [hf] at h
    cases h
  | some kv =>
    rw [hf] at h
    injection h with h
    have hmem := List.mem_of_find?_eq_some hf
    have hk : kv.1 = k := by
      have hp := List.find?_some hf
      simp only [decide_eq_true_eq] at hp
      exact hp
    subst h
    subst hk
    simpa using hmem

/-- C1: for every action accepted by `validate_and_build` under a
well-formed policy document (tool known, required parameters present and
passing their type checks, non-empty template), the returned command string
contains no literal `{name}` placeholder for any name and contains none of
the blacklisted tokens (symbols as substrings, `rm`/`shutdown`/`reboot` at
word boundaries).  The policy well-formedness hypothesis is the spec's
reading of `whitelist.yaml` (templates made of literal text and `{name}`
placeholder groups, brace-free allow-lists); without it a pathological
template such as `{a{b}c}` can splice a new placeholder out of the single
stripping pass. -/
theorem validate_and_build_no_placeholder_no_blacklist {wl : PolicyDoc}
    (hwl : WellFormedPolicy wl) {action : Value} {cmd : Str} {meta : CmdMeta}
    (h : validate_and_build wl action = .ok (cmd, meta)) :
    PlaceholderFree cmd ∧ NoBlacklistTokens cmd := by
  unfold validate_and_build at h
  split at h
  case _ kvs =>
    split_ifs at h with htr
    split at h
    all_goals try cases h
    next tname heqtool =>
      split at h
      all_goals try cases h
      next tm hlk =>
        unfold buildWithTool at h
        cases hv : validateParams tm.params (resolveParams kvs) with
        | error e =>
          rw [hv] at h
          cases h
        | ok validated =>
          rw [hv] at h
          dsimp only at h
          split_ifs at h with htemp
          cases ha : assertNoBlacklist
              (normWs (stripPlaceholders (renderTemplate tm.template validated))) with
          | error e =>
            rw [ha] at h
            cases h
          | ok u =>
            rw [ha] at h
            dsimp only at h
            injection h with h
            have hcmd : cmd = normWs (stripPlaceholders (renderTemplate tm.template validated)) :=
              (congrArg Prod.fst h).symm
            subst hcmd
            obtain ⟨hwb, hparams⟩ := hwl (tname, tm) (plLookup_mem hlk)
            have hkv : ∀ kv ∈ validated, kv.1 ≠ [] ∧
                (∀ c ∈ kv.1, isWordChar c = true) ∧ BraceFree kv.2 := by
              intro kv hkvm
              obtain ⟨p, hpm, hname, raw, hraw⟩ := validateParams_mem hv kv hkvm
              obtain ⟨⟨hne, hword⟩, hpaths, hallow⟩ := hparams p hpm
              rw [hname]
              exact ⟨hne, hword, validateOne_braceFree hpaths hallow hraw⟩
            have hrw : WellBraced (renderTemplate tm.template validated) :=
              renderTemplate_wellBraced hkv hwb
            obtain ⟨L, hL, hflat⟩ := hrw
            have hbf : BraceFree (stripPlaceholders (renderTemplate tm.template validated)) := by
              rw [hflat]
              exact stripGo_flatSegs hL
            constructor
            · exact placeholderFree_of_braceFree (normWs_braceFree hbf)
            · cases u
              exact assertNoBlacklist_sound ha
  all_goals cases h

/-- Witness for C1 at a concrete accepted action: the built command
`ping -c 3 10.0.0.5` is placeholder-free and blacklist-free. -/
theorem validate_and_build_no_placeholder_no_blacklist_witness :
    PlaceholderFree (("ping -c 3 10.0.0.5").data) ∧
    NoBlacklistTokens (("ping -c 3 10.0.0.5").data) := by
  refine @validate_and_build_no_placeholder_no_blacklist specPolicy ?_
    pingActionNested _
    ⟨("ping").data, false,
     ("ping -c 3 ").data ++ lbrace :: ("target").data ++ [rbrace],
     [(("target").data, ("10.0.0.5").data)]⟩ rfl
  · intro e he
    simp only [specPolicy, List.mem_cons, List.not_mem_nil, or_false] at he
    subst he
    refine ⟨⟨[.lit (("ping -c 3 ").data), .ph (("target").data)], ?_, by decide⟩, ?_⟩
    · intro g hg
      rcases List.mem_cons.mp hg with rfl | hg2
      · simp only [SegOk, BraceFree]
        decide
      rcases List.mem_cons.mp hg2 with rfl | hg3
      · simp only [SegOk]
        decide
      · cases hg3
    · intro p hp
      simp only [List.mem_cons, List.not_mem_nil, or_false] at hp
      subst hp
      exact ⟨⟨by decide, by decide⟩,
             fun v hv => absurd hv (List.not_mem_nil v),
             fun v hv => absurd hv (List.not_mem_nil v)⟩

/-- C5 (failing-input evaluation): on the input
`Action: {'tool':'ping', 'params': {'target': '192,168,60,3'}},` the
extraction-plus-repair pipeline does not yield the claimed object.  The
balanced-brace extraction and the comma-address repair succeed (the repaired
candidate contains `192.168.60.3`), but the single-quote conversion only
rewrites quotes adjacent to colons and commas, leaving the opening quotes of
`'tool`, `'params`, `'target` and the address value single, so both parse
attempts fail and the pipeline raises the invalid-JSON error carrying the raw
and repaired candidates. -/
theorem normalizer_comma_ip_repair_fails :
    normalize_action c5Input = .error (.invalidJson c5Candidate c5Repaired) := rfl

/-! ## Scheduler trace bookkeeping lemmas -/

theorem defStatuses_status (ph : Str) (i : Nat) (nm m : Str) (r : List Event) :
    defStatuses (.status ph i nm m :: r) =
      if ph = ("defense").data then (i, nm) :: defStatuses r else defStatuses r := rfl

theorem defStatuses_info (m : Str) (r : List Event) :
    defStatuses (.info m :: r) = defStatuses r := rfl

theorem defStatuses_warn (m : Str) (r : List Event) :
    defStatuses (.warn m :: r) = defStatuses r := rfl

theorem defStatuses_dispatch (t : Target) (c : Str) (r : List Event) :
    defStatuses (.dispatch t c :: r) = defStatuses r := rfl

theorem defStatuses_complete (ph : Str) (i : Nat) (nm : Str) (r : List Event) :
    defStatuses (.complete ph i nm :: r) = defStatuses r := rfl

theorem defStatuses_errorEv (ph : Str) (i : Nat) (nm : Str) (e : StageErr)
    (r : List Event) : defStatuses (.errorEv ph i nm e :: r) = defStatuses r := rfl

theorem defStatuses_alert (r : List Event) :
    defStatuses (.alert :: r) = defStatuses r := rfl

theorem defStatuses_debug (b : Bool) (r : List Event) :
    defStatuses (.debug b :: r) = defStatuses r := rfl

theorem defStatuses_finished (r : List Event) :
    defStatuses (.finished :: r) = defStatuses r := rfl

theorem defStatuses_append (a b : List Event) :
    defStatuses (a ++ b) = defStatuses a ++ defStatuses b := by
  induction a with
  | nil => rfl
  | cons e r ih =>
    cases e with
    | status ph i nm m =>
      rw [List.cons_append, defStatuses_status, defStatuses_status]
      split
      · rw [List.cons_append, ih]
      · exact ih
    | info m => rw [List.cons_append, defStatuses_info, defStatuses_info, ih]
    | warn m => rw [List.cons_append, defStatuses_warn, defStatuses_warn, ih]
    | dispatch t c =>
      rw [List.cons_append, defStatuses_dispatch, defStatuses_dispatch, ih]
    | complete ph i nm =>
      rw [List.cons_append, defStatuses_complete, defStatuses_complete, ih]
    | errorEv ph i nm e2 =>
      rw [List.cons_append, defStatuses_errorEv, defStatuses_errorEv, ih]
    | alert => rw [List.cons_append, defStatuses_alert, defStatuses_alert, ih]
    | debug b2 => rw [List.cons_append, defStatuses_debug, defStatuses_debug, ih]
    | finished =>
      rw [List.cons_append, defStatuses_finished, defStatuses_finished, ih]

theorem attack_phase_ne_defense : ¬ (("attack").data = (("defense").data)) := by decide

theorem countAlert_alert (r : List Event) :
    countAlert (.alert :: r) = countAlert r + 1 := rfl

theorem countAlert_status (ph : Str) (i : Nat) (nm m : Str) (r : List Event) :
    countAlert (.status ph i nm m :: r) = countAlert r := rfl

theorem countAlert_info (m : Str) (r : List Event) :
    countAlert (.info m :: r) = countAlert r := rfl

theorem countAlert_warn (m : Str) (r : List Event) :
    countAlert (.warn m :: r) = countAlert r := rfl

theorem countAlert_dispatch (t : Target) (c : Str) (r : List Event) :
    countAlert (.dispatch t c :: r) = countAlert r := rfl

theorem countAlert_complete (ph : Str) (i : Nat) (nm : Str) (r : List Event) :
    countAlert (.complete ph i nm :: r) = countAlert r := rfl

theorem countAlert_errorEv (ph : Str) (i : Nat) (nm : Str) (e : StageErr)
    (r : List Event) : countAlert (.errorEv ph i nm e :: r) = countAlert r := rfl

theorem countAlert_debug (b : Bool) (r : List Event) :
    countAlert (.debug b :: r) = countAlert r := rfl

theorem countAlert_finished (r : List Event) :
    countAlert (.finished :: r) = countAlert r := rfl

theorem countAlert_append (a b : List Event) :
    countAlert (a ++ b) = countAlert a + countAlert b := by
  induction a with
  | nil => simp [countAlert]
  | cons e r ih =>
    cases e with
    | alert =>
      rw [List.cons_append, countAlert_alert, countAlert_alert, ih]
      omega
    | status ph i nm m => rw [List.cons_append, countAlert_status, countAlert_status, ih]
    | info m => rw [List.cons_append, countAlert_info, countAlert_info, ih]
    | warn m => rw [List.cons_append, countAlert_warn, countAlert_warn, ih]
    | dispatch t c => rw [List.cons_append, countAlert_dispatch, countAlert_dispatch, ih]
    | complete ph i nm =>
      rw [List.cons_append, countAlert_complete, countAlert_complete, ih]
    | errorEv ph i nm e2 =>
      rw [List.cons_append, countAlert_errorEv, countAlert_errorEv, ih]
    | debug b2 => rw [List.cons_append, countAlert_debug, countAlert_debug, ih]
    | finished => rw [List.cons_append, countAlert_finished, countAlert_finished, ih]

/-! ## Detection-flag lemmas -/

theorem applyDatagrams_true (ds : List Str) : applyDatagrams true ds = true := by
  induction ds with
  | nil => rfl
  | cons x xs ih =>
    show List.foldl listenerStep (listenerStep true x) xs = true
    have hx : listenerStep true x = true := by
      unfold listenerStep; split <;> rfl
    rw [hx]
    exact ih

theorem applyDatagrams_of_alert (flag : Bool) (ds : List Str)
    (h : ∃ d ∈ ds, isAlertDatagram d = true) : applyDatagrams flag ds = true := by
  obtain ⟨d, hm, hd⟩ := h
  induction ds generalizing flag with
  | nil => cases hm
  | cons x xs ih =>
    rcases List.mem_cons.mp hm with h1 | h1
    · subst h1
      show List.foldl listenerStep (listenerStep flag d) xs = true
      have hx : listenerStep flag d = true := by unfold listenerStep; rw [hd]; rfl
      rw [hx]
      exact applyDatagrams_true xs
    · exact ih (listenerStep flag x) h1

/-! ## Field-preservation lemmas of the scheduler steps -/

theorem attackStep_fields (cfg : SchedConfig) (orc : IterOracle) (st : SchedState)
    (s : Stage) :
    (attackStep cfg orc st s).defense_idx = st.defense_idx ∧
    (attackStep cfg orc st s).defense_started = st.defense_started ∧
    (attackStep cfg orc st s).purpose_idx = st.purpose_idx ∧
    (attackStep cfg orc st s).flag = st.flag ∧
    (attackStep cfg orc st s).attack_idx = st.attack_idx + 1 := by
  unfold attackStep
  cases tryAction cfg.wl orc.attackLLM <;> exact ⟨rfl, rfl, rfl, rfl, rfl⟩

theorem attackStep_defStatuses (cfg : SchedConfig) (orc : IterOracle) (st : SchedState)
    (s : Stage) :
    defStatuses (attackStep cfg orc st s).events = defStatuses st.events := by
  unfold attackStep
  cases tryAction cfg.wl orc.attackLLM <;>
    simp only [defStatuses_append, defStatuses_status, defStatuses_dispatch,
      defStatuses_complete, defStatuses_errorEv, if_neg attack_phase_ne_defense,
      defStatuses, List.append_nil]

theorem attackStep_countAlert (cfg : SchedConfig) (orc : IterOracle) (st : SchedState)
    (s : Stage) :
    countAlert (attackStep cfg orc st s).events = countAlert st.events := by
  unfold attackStep
  cases tryAction cfg.wl orc.attackLLM <;>
    simp only [countAlert_append, countAlert_status, countAlert_dispatch,
      countAlert_complete, countAlert_errorEv, countAlert, Nat.add_zero]

theorem escalateStep_fields (cfg : SchedConfig) (orc : IterOracle) (st : SchedState) :
    (escalateStep cfg orc st).flag = st.flag ∧
    (escalateStep cfg orc st).purpose_idx = st.purpose_idx ∧
    (escalateStep cfg orc st).attack_idx = st.attack_idx ∧
    (escalateStep cfg orc st).defense_started = st.defense_started ∧
    (escalateStep cfg orc st).defense_idx ≤ st.defense_idx + 1 := by
  unfold escalateStep
  split
  · cases tryAction cfg.wl orc.escalateLLM <;>
      exact ⟨rfl, rfl, rfl, rfl, Nat.le_refl _⟩
  · exact ⟨rfl, rfl, rfl, rfl, Nat.le_succ _⟩

theorem escalateStep_idx_inrange {cfg : SchedConfig} {orc : IterOracle}
    {st : SchedState} (h : st.defense_idx < cfg.defense_stages.length) :
    (escalateStep cfg orc st).defense_idx = st.defense_idx + 1 := by
  unfold escalateStep
  rw [dif_pos h]
  cases tryAction cfg.wl orc.escalateLLM <;> rfl

theorem escalateStep_defStatuses {cfg : SchedConfig} {orc : IterOracle}
    {st : SchedState} (h : st.defense_idx < cfg.defense_stages.length) :
    defStatuses (escalateStep cfg orc st).events =
      defStatuses st.events ++
        [(st.defense_idx + 1, (cfg.defense_stages.get ⟨st.defense_idx, h⟩).name)] := by
  unfold escalateStep
  rw [dif_pos h]
  cases tryAction cfg.wl orc.escalateLLM <;>
    simp only [defStatuses_append, defStatuses_status, defStatuses_dispatch,
      defStatuses_complete, defStatuses_errorEv, if_pos rfl, defStatuses,
      List.append_nil, eq_self_iff_true, ite_true]

theorem escalateStep_countAlert (cfg : SchedConfig) (orc : IterOracle)
    (st : SchedState) :
    countAlert (escalateStep cfg orc st).events = countAlert st.events := by
  unfold escalateStep
  split
  · cases tryAction cfg.wl orc.escalateLLM <;>
      simp only [countAlert_append, countAlert_status, countAlert_dispatch,
        countAlert_complete, countAlert_errorEv, countAlert, Nat.add_zero]
  · rfl

theorem monitorStep_none {cfg : SchedConfig} {orc : IterOracle} {st : SchedState}
    (h : monitorStep cfg orc st = none) :
    cfg.defense_stages ≠ [] ∧ st.defense_started = false ∧
      cfg.defense_stages.length ≤ st.defense_idx := by
  unfold monitorStep at h
  split_ifs at h with h1 h2
  · cases htry : tryAction cfg.wl orc.monitorLLM <;>
      (simp only [htry] at h; exact Option.noConfusion h)
  · exact ⟨h1.1, h1.2, Nat.le_of_not_lt h2⟩

theorem monitorStep_ok_eq {cfg : SchedConfig} {orc : IterOracle} {st : SchedState}
    {cmd : Str} (hne : cfg.defense_stages ≠ []) (hst : st.defense_started = false)
    (h : st.defense_idx < cfg.defense_stages.length)
    (htry : tryAction cfg.wl orc.monitorLLM = .ok cmd) :
    monitorStep cfg orc st = some { st with
      events := (st.events ++
        [.status (("defense").data) (st.defense_idx + 1)
          (cfg.defense_stages.get ⟨st.defense_idx, h⟩).name
          (("Starting defense monitor (Blue)").data)]) ++
        [run_ssh_command (replaceAll (("red").data) (("blue").data) cmd),
         .info (("Defense monitor started (Blue)").data)],
      defense_started := true } := by
  unfold monitorStep
  rw [if_pos ⟨hne, hst⟩, dif_pos h, htry]

theorem monitorStep_some_fields {cfg : SchedConfig} {orc : IterOracle}
    {st st2 : SchedState} (h : monitorStep cfg orc st = some st2) :
    st2.defense_idx = st.defense_idx ∧ st2.purpose_idx = st.purpose_idx ∧
    st2.attack_idx = st.attack_idx ∧ st2.flag = st.flag ∧
    countAlert st2.events = countAlert st.events := by
  unfold monitorStep at h
  split_ifs at h with h1 h2
  · cases htry : tryAction cfg.wl orc.monitorLLM with
    | ok cmd =>
      simp only [htry, Option.some.injEq] at h
      subst h
      refine ⟨rfl, rfl, rfl, rfl, ?_⟩
      simp only [countAlert_append, countAlert_status, countAlert_dispatch,
        countAlert_info, run_ssh_command, countAlert, Nat.add_zero]
    | error e =>
      simp only [htry, Option.some.injEq] at h
      subst h
      refine ⟨rfl, rfl, rfl, rfl, ?_⟩
      simp only [countAlert_append, countAlert_status, countAlert_errorEv,
        countAlert, Nat.add_zero]
  · cases h
    exact ⟨rfl, rfl, rfl, rfl, rfl⟩

theorem afterSleepCore_no_detection {cfg : SchedConfig} {orc : IterOracle}
    {st : SchedState} (happ : applyDatagrams st.flag orc.datagrams = false) :
    afterSleepCore cfg orc st =
      { st with
        flag := false,
        events := st.events ++ [] ++ [Event.debug false] } := by
  unfold afterSleepCore
  rw [happ]
  rfl

theorem afterSleepCore_detection {cfg : SchedConfig} {orc : IterOracle}
    {st : SchedState} (happ : applyDatagrams st.flag orc.datagrams = true) :
    afterSleepCore cfg orc st =
      escalateStep cfg orc { st with
        flag := false,
        events := st.events ++ [Event.alert] ++ [Event.debug true] } := by
  unfold afterSleepCore
  rw [happ]
  rfl

theorem afterSleepCore_flag (cfg : SchedConfig) (orc : IterOracle) (st : SchedState) :
    (afterSleepCore cfg orc st).flag = false := by
  cases happ : applyDatagrams st.flag orc.datagrams with
  | false => rw [afterSleepCore_no_detection happ]
  | true =>
    rw [afterSleepCore_detection happ]
    exact (escalateStep_fields cfg orc _).1

theorem afterSleepCore_fields (cfg : SchedConfig) (orc : IterOracle) (st : SchedState) :
    (afterSleepCore cfg orc st).purpose_idx = st.purpose_idx ∧
    (afterSleepCore cfg orc st).attack_idx = st.attack_idx ∧
    (afterSleepCore cfg orc st).defense_started = st.defense_started ∧
    (afterSleepCore cfg orc st).defense_idx ≤ st.defense_idx + 1 := by
  cases happ : applyDatagrams st.flag orc.datagrams with
  | false =>
    rw [afterSleepCore_no_detection happ]
    exact ⟨rfl, rfl, rfl, Nat.le_succ _⟩
  | true =>
    rw [afterSleepCore_detection happ]
    have hf := escalateStep_fields cfg orc { st with
      flag := false,
      events := st.events ++ [Event.alert] ++ [Event.debug true] }
    exact ⟨hf.2.1, hf.2.2.1, hf.2.2.2.1, hf.2.2.2.2⟩

theorem afterSleepCore_countAlert (cfg : SchedConfig) (orc : IterOracle)
    (st : SchedState) :
    countAlert (afterSleepCore cfg orc st).events ≤ countAlert st.events + 1 := by
  cases happ : applyDatagrams st.flag orc.datagrams with
  | false =>
    rw [afterSleepCore_no_detection happ]
    simp only [countAlert_append, countAlert_debug, countAlert, Nat.add_zero]
    exact Nat.le_succ _
  | true =>
    rw [afterSleepCore_detection happ]
    rw [escalateStep_countAlert]
    simp only [countAlert_append, countAlert_debug, countAlert_alert, countAlert]
    omega

theorem iterState_afterSleep (cfg : SchedConfig) (orc : IterOracle) (st : SchedState) :
    iterState (afterSleep cfg orc st) = afterSleepCore cfg orc st := by
  unfold afterSleep
  split <;> rfl

theorem afterSleep_ne_crash (cfg : SchedConfig) (orc : IterOracle)
    (st st2 : SchedState) (i : Nat) : afterSleep cfg orc st ≠ .crash st2 i := by
  intro h
  unfold afterSleep at h
  split at h <;> exact IterResult.noConfusion h

/-! ## Loop-level lemmas -/

theorem loopIter_crash {cfg : SchedConfig} {orc : IterOracle} {st st2 : SchedState}
    {i : Nat} (h : loopIter cfg orc st = .crash st2 i) :
    cfg.defense_stages ≠ [] ∧ st2.defense_started = false ∧
      cfg.defense_stages.length ≤ i := by
  unfold loopIter at h
  split at h
  · rename_i ha
    dsimp only at h
    cases hm : monitorStep cfg orc
        (attackStep cfg orc st (cfg.attack_stages.get ⟨st.attack_idx, ha⟩)) with
    | none =>
      rw [hm] at h
      have hprops := monitorStep_none hm
      injection h with h1 h2
      subst h1
      subst h2
      exact hprops
    | some s2 =>
      rw [hm] at h
      exact absurd h (afterSleep_ne_crash cfg orc s2 st2 i)
  · split at h
    · exact IterResult.noConfusion h
    · exact absurd h (afterSleep_ne_crash cfg orc st st2 i)

theorem runLoop_crashed {cfg : SchedConfig} {orc : Nat → IterOracle} :
    ∀ (fuel k : Nat) (st stf : SchedState) (i : Nat),
      runLoop cfg orc fuel k st = .crashed stf i →
      cfg.defense_stages ≠ [] ∧ stf.defense_started = false ∧
        cfg.defense_stages.length ≤ i := by
  intro fuel
  induction fuel with
  | zero =>
    intro k st stf i h
    exact RunOutcome.noConfusion h
  | succ f ih =>
    intro k st stf i h
    unfold runLoop at h
    cases hl : loopIter cfg (orc k) st with
    | next s2 =>
      rw [hl] at h
      exact ih (k + 1) s2 stf i h
    | exitLoop s2 =>
      rw [hl] at h
      exact RunOutcome.noConfusion h
    | crash s2 j =>
      rw [hl] at h
      injection h with h1 h2
      subst h1
      subst h2
      exact loopIter_crash hl

/-! ## GoodEvents invariant lemmas -/

theorem goodEvents_append {cfg : SchedConfig} {a b : List Event} :
    GoodEvents cfg (a ++ b) ↔ GoodEvents cfg a ∧ GoodEvents cfg b := by
  unfold GoodEvents
  constructor
  · intro h
    exact ⟨fun e he => h e (List.mem_append_left _ he),
           fun e he => h e (List.mem_append_right _ he)⟩
  · rintro ⟨h1, h2⟩ e he
    rcases List.mem_append.mp he with hca | hcb
    · exact h1 e hca
    · exact h2 e hcb

theorem goodEvents_cons {cfg : SchedConfig} {e : Event} {l : List Event} :
    GoodEvents cfg (e :: l) ↔ GoodEvents cfg [e] ∧ GoodEvents cfg l := by
  unfold GoodEvents
  constructor
  · intro h
    refine ⟨fun x hx => ?_, fun x hx => h x (List.mem_cons_of_mem e hx)⟩
    have hx2 := List.mem_singleton.mp hx
    rw [hx2]
    exact h e (List.mem_cons_self e l)
  · rintro ⟨h1, h2⟩ x hx
    rcases List.mem_cons.mp hx with hc | hc
    · subst hc
      exact h1 x (List.mem_singleton.mpr rfl)
    · exact h2 x hc

theorem goodEvents_nil {cfg : SchedConfig} : GoodEvents cfg [] := by
  intro e he
  cases he

theorem goodEvents_phaseOnly {cfg : SchedConfig} {e : Event}
    (h1 : eventPhase e ≠ some (("purpose").data)) (h2 : statusStage e = none) :
    GoodEvents cfg [e] := by
  intro x hx
  have hx2 := List.mem_singleton.mp hx
  subst hx2
  refine ⟨h1, fun ph i nm heq => ?_⟩
  rw [h2] at heq
  exact Option.noConfusion heq

theorem phase_attack_ne_purpose :
    (some (("attack").data) : Option Str) ≠ some (("purpose").data) := by decide

theorem phase_defense_ne_purpose :
    (some (("defense").data) : Option Str) ≠ some (("purpose").data) := by decide

theorem goodEvents_status_attack {cfg : SchedConfig} {i : Nat} {nm m : Str}
    (hnm : nm ∈ cfg.attack_stages.map Stage.name) :
    GoodEvents cfg [.status (("attack").data) i nm m] := by
  intro x hx
  have hx2 := List.mem_singleton.mp hx
  subst hx2
  refine ⟨phase_attack_ne_purpose, fun ph j nm2 heq => ?_⟩
  simp only [statusStage, Option.some.injEq, Prod.mk.injEq] at heq
  obtain ⟨hph, hj, hnm2⟩ := heq
  subst hph
  subst hnm2
  exact Or.inl ⟨rfl, hnm⟩

theorem goodEvents_status_defense {cfg : SchedConfig} {i : Nat} {nm m : Str}
    (hnm : nm ∈ cfg.defense_stages.map Stage.name) :
    GoodEvents cfg [.status (("defense").data) i nm m] := by
  intro x hx
  have hx2 := List.mem_singleton.mp hx
  subst hx2
  refine ⟨phase_defense_ne_purpose, fun ph j nm2 heq => ?_⟩
  simp only [statusStage, Option.some.injEq, Prod.mk.injEq] at heq
  obtain ⟨hph, hj, hnm2⟩ := heq
  subst hph
  subst hnm2
  exact Or.inr ⟨rfl, hnm⟩

theorem attackStep_good {cfg : SchedConfig} {orc : IterOracle} {st : SchedState}
    {s : Stage} (hs : s ∈ cfg.attack_stages) (hg : GoodEvents cfg st.events) :
    GoodEvents cfg (attackStep cfg orc st s).events := by
  have hnm : s.name ∈ cfg.attack_stages.map Stage.name :=
    List.mem_map_of_mem Stage.name hs
  unfold attackStep
  cases tryAction cfg.wl orc.attackLLM with
  | ok cmd =>
    refine goodEvents_append.mpr ⟨goodEvents_append.mpr ⟨hg, ?_⟩, ?_⟩
    · exact goodEvents_status_attack hnm
    · refine goodEvents_cons.mpr ⟨?_, ?_⟩
      · exact goodEvents_phaseOnly (fun hc => Option.noConfusion hc) rfl
      · refine goodEvents_cons.mpr ⟨?_, goodEvents_nil⟩
        exact goodEvents_phaseOnly phase_attack_ne_purpose rfl
  | error e =>
    refine goodEvents_append.mpr ⟨goodEvents_append.mpr ⟨hg, ?_⟩, ?_⟩
    · exact goodEvents_status_attack hnm
    · refine goodEvents_cons.mpr ⟨?_, goodEvents_nil⟩
      exact goodEvents_phaseOnly phase_attack_ne_purpose rfl

theorem escalateStep_good {cfg : SchedConfig} {orc : IterOracle} {st : SchedState}
    (hg : GoodEvents cfg st.events) :
    GoodEvents cfg (escalateStep cfg orc st).events := by
  unfold escalateStep
  split
  · rename_i h
    have hnm : (cfg.defense_stages.get ⟨st.defense_idx, h⟩).name ∈
        cfg.defense_stages.map Stage.name :=
      List.mem_map_of_mem Stage.name (cfg.defense_stages.get_mem _ _)
    cases tryAction cfg.wl orc.escalateLLM with
    | ok cmd =>
      refine goodEvents_append.mpr ⟨goodEvents_append.mpr ⟨hg, ?_⟩, ?_⟩
      · exact goodEvents_status_defense hnm
      · refine goodEvents_cons.mpr ⟨?_, ?_⟩
        · exact goodEvents_phaseOnly (fun hc => Option.noConfusion hc) rfl
        · refine goodEvents_cons.mpr ⟨?_, goodEvents_nil⟩
          exact goodEvents_phaseOnly phase_defense_ne_purpose rfl
    | error e =>
      refine goodEvents_append.mpr ⟨goodEvents_append.mpr ⟨hg, ?_⟩, ?_⟩
      · exact goodEvents_status_defense hnm
      · refine goodEvents_cons.mpr ⟨?_, goodEvents_nil⟩
        exact goodEvents_phaseOnly phase_defense_ne_purpose rfl
  · exact hg

theorem monitorStep_good {cfg : SchedConfig} {orc : IterOracle} {st st2 : SchedState}
    (h : monitorStep cfg orc st = some st2) (hg : GoodEvents cfg st.events) :
    GoodEvents cfg st2.events := by
  unfold monitorStep at h
  split_ifs at h with h1 h2
  · have hnm : (cfg.defense_stages.get ⟨st.defense_idx, h2⟩).name ∈
        cfg.defense_stages.map Stage.name :=
      List.mem_map_of_mem Stage.name (cfg.defense_stages.get_mem _ _)
    cases htry : tryAction cfg.wl orc.monitorLLM with
    | ok cmd =>
      simp only [htry, Option.some.injEq] at h
      subst h
      refine goodEvents_append.mpr ⟨goodEvents_append.mpr ⟨hg, ?_⟩, ?_⟩
      · exact goodEvents_status_defense hnm
      · refine goodEvents_cons.mpr ⟨?_, ?_⟩
        · exact goodEvents_phaseOnly (fun hc => Option.noConfusion hc) rfl
        · refine goodEvents_cons.mpr ⟨?_, goodEvents_nil⟩
          exact goodEvents_phaseOnly (fun hc => Option.noConfusion hc) rfl
    | error e =>
      simp only [htry, Option.some.injEq] at h
      subst h
      refine goodEvents_append.mpr ⟨goodEvents_append.mpr ⟨hg, ?_⟩, ?_⟩
      · exact goodEvents_status_defense hnm
      · refine goodEvents_cons.mpr ⟨?_, goodEvents_nil⟩
        exact goodEvents_phaseOnly phase_defense_ne_purpose rfl
  · cases h
    exact hg

theorem afterSleepCore_good {cfg : SchedConfig} {orc : IterOracle} {st : SchedState}
    (hg : GoodEvents cfg st.events) :
    GoodEvents cfg (afterSleepCore cfg orc st).events := by
  cases happ : applyDatagrams st.flag orc.datagrams with
  | false =>
    rw [afterSleepCore_no_detection happ]
    refine goodEvents_append.mpr ⟨goodEvents_append.mpr ⟨hg, goodEvents_nil⟩, ?_⟩
    exact goodEvents_phaseOnly (fun hc => Option.noConfusion hc) rfl
  | true =>
    rw [afterSleepCore_detection happ]
    refine escalateStep_good ?_
    refine goodEvents_append.mpr ⟨goodEvents_append.mpr ⟨hg, ?_⟩, ?_⟩
    · refine goodEvents_cons.mpr ⟨?_, goodEvents_nil⟩
      exact goodEvents_phaseOnly (fun hc => Option.noConfusion hc) rfl
    · exact goodEvents_phaseOnly (fun hc => Option.noConfusion hc) rfl

theorem loopIter_good {cfg : SchedConfig} {orc : IterOracle} {st : SchedState}
    (hg : GoodEvents cfg st.events) :
    GoodEvents cfg (iterState (loopIter cfg orc st)).events ∧
      (iterState (loopIter cfg orc st)).purpose_idx = st.purpose_idx := by
  unfold loopIter
  by_cases ha : st.attack_idx < cfg.attack_stages.length
  · rw [dif_pos ha]
    dsimp only
    cases hm : monitorStep cfg orc
        (attackStep cfg orc st (cfg.attack_stages.get ⟨st.attack_idx, ha⟩)) with
    | none =>
      exact ⟨attackStep_good (cfg.attack_stages.get_mem _ _) hg,
        (attackStep_fields cfg orc st _).2.2.1⟩
    | some s2 =>
      have hga := @attackStep_good cfg orc st
        (cfg.attack_stages.get ⟨st.attack_idx, ha⟩)
        (cfg.attack_stages.get_mem _ _) hg
      have hgm := monitorStep_good hm hga
      have hfm := (monitorStep_some_fields hm).2.1
      rw [iterState_afterSleep]
      refine ⟨afterSleepCore_good hgm, ?_⟩
      rw [(afterSleepCore_fields cfg orc s2).1, hfm,
        (attackStep_fields cfg orc st _).2.2.1]
  · rw [dif_neg ha]
    by_cases hd : cfg.defense_stages.length ≤ st.defense_idx
    · rw [if_pos hd]
      exact ⟨hg, rfl⟩
    · rw [if_neg hd, iterState_afterSleep]
      exact ⟨afterSleepCore_good hg, (afterSleepCore_fields cfg orc st).1⟩

theorem runLoop_good {cfg : SchedConfig} {orc : Nat → IterOracle} :
    ∀ (fuel k : Nat) (st : SchedState), GoodEvents cfg st.events →
      GoodEvents cfg (outState (runLoop cfg orc fuel k st)).events ∧
      (outState (runLoop cfg orc fuel k st)).purpose_idx = st.purpose_idx := by
  intro fuel
  induction fuel with
  | zero =>
    intro k st hg
    exact ⟨hg, rfl⟩
  | succ f ih =>
    intro k st hg
    have h2 := @loopIter_good cfg (orc k) st hg
    unfold runLoop
    cases hl : loopIter cfg (orc k) st with
    | next s2 =>
      rw [hl] at h2
      have h3 := ih (k + 1) s2 h2.1
      exact ⟨h3.1, h3.2.trans h2.2⟩
    | exitLoop s2 =>
      rw [hl] at h2
      refine ⟨goodEvents_append.mpr ⟨h2.1, ?_⟩, h2.2⟩
      exact goodEvents_phaseOnly (fun hc => Option.noConfusion hc) rfl
    | crash s2 j =>
      rw [hl] at h2
      exact h2

/-- C6: Immediately after the first attack stage runs (defense stages exist,
defense not yet started) the scheduler does run the first defense stage in
monitor mode and sets the `defense_started` latch — but the claim's dispatch
target is wrong in the code: `run_ssh_command` always connects to
`SSH_HOST = 192.168.60.2` (the red/attacker machine), so the monitor command
(with `red` merely text-replaced by `blue` inside the command string) is
dispatched to the red target, never to the blue one.  In the one-attack,
one-defense scenario below the first iteration emits the defense-monitor
status for stage 1, sets the latch, and both dispatches of the run (attack
and monitor) go to the red host. -/
theorem scheduler_monitor_dispatched_to_red :
    (iterState (loopIter ⟨specPolicy, [stAttack1], [stDefense1]⟩ okOracle
        {})).defense_started = true ∧
    defStatuses (iterState (loopIter ⟨specPolicy, [stAttack1], [stDefense1]⟩ okOracle
        {})).events = [(1, ("monitor").data)] ∧
    dispatches (iterState (loopIter ⟨specPolicy, [stAttack1], [stDefense1]⟩ okOracle
        {})).events =
      [(Target.red, ("ping -c 3 10.0.0.5").data),
       (Target.red, ("ping -c 3 10.0.0.5").data)] ∧
    (∀ cmd : Str, run_ssh_command cmd = Event.dispatch Target.red cmd) :=
  ⟨rfl, rfl, rfl, fun _ => rfl⟩

/-- C7: the detection flag has at-most-one-pending-detection semantics: a
window containing at least one recognized alert datagram leaves the flag set
(no matter how many alerts arrived), a poll of a set flag returns true and
clears it, a poll of a clear flag returns false and leaves it clear, and
after the sleep/poll/escalate tail of any iteration the flag is consumed
(false), at most one `alert` observation is recorded, and the defense cursor
advances by at most one — multiple alerts in one window collapse into a
single escalation. -/
theorem detection_flag_single_pending :
    (∀ (flag : Bool) (ds : List Str), (∃ d ∈ ds, isAlertDatagram d = true) →
        applyDatagrams flag ds = true) ∧
    check_detection_on_blue true = (true, false) ∧
    check_detection_on_blue false = (false, false) ∧
    (∀ (cfg : SchedConfig) (orc : IterOracle) (st : SchedState),
        (iterState (afterSleep cfg orc st)).flag = false ∧
        (iterState (afterSleep cfg orc st)).defense_idx ≤ st.defense_idx + 1 ∧
        countAlert (iterState (afterSleep cfg orc st)).events ≤
          countAlert st.events + 1) :=
  ⟨applyDatagrams_of_alert, rfl, rfl, fun cfg orc st => by
    rw [iterState_afterSleep]
    exact ⟨afterSleepCore_flag cfg orc st, (afterSleepCore_fields cfg orc st).2.2.2,
      afterSleepCore_countAlert cfg orc st⟩⟩

/-- Witness for the C7 theorem: two alert datagrams (one lower-case, so the
strip/upper recognition applies) in one window set the flag once, and a poll
of the set flag observes it and clears it. -/
theorem detection_flag_single_pending_witness :
    applyDatagrams false [("ALERT").data, ("alert").data] = true ∧
    check_detection_on_blue true = (true, false) :=
  ⟨detection_flag_single_pending.1 false [("ALERT").data, ("alert").data]
      ⟨("ALERT").data, by decide, by decide⟩,
   detection_flag_single_pending.2.1⟩

/-- C8: counterexample to the claim that the empty-catalog condition is the
only run-fatal condition of the stage loop.  The catalog
`[stAttack1, stAttack2, stDefense1]` is non-empty, yet the run dies with the
uncaught `IndexError` of the monitor block: in the first iteration the
monitor attempt fails (so `defense_started` stays false) while a confirmed
detection escalates and advances the defense cursor to 1; in the second
iteration `ds = defense_stages[defense_idx]` — evaluated outside the block's
`try/except` — indexes position 1 of a one-element list. -/
theorem scheduler_nonempty_catalog_crash :
    isCrashed (runOrchestrator specPolicy [stAttack1, stAttack2, stDefense1]
        orcC10 3) = true ∧
    [stAttack1, stAttack2, stDefense1] ≠ [] :=
  ⟨rfl, by decide⟩

/-- C8 (amended): an empty stage catalog warns and exits successfully with
zero stages executed, but it is not the only run-fatal condition: every
crashed run comes from a categorized catalog with a non-empty defense list
whose monitor block was reached with `defense_started` still false and the
defense cursor at or beyond the end of the defense list — the uncaught
`IndexError` of `ds = defense_stages[defense_idx]`. -/
theorem scheduler_empty_catalog_exit_and_crash_shape :
    (∀ (wl : PolicyDoc) (orc : Nat → IterOracle) (fuel : Nat),
      runOrchestrator wl [] orc fuel =
        .exitedEmpty [.warn (("No stages defined; nothing to run").data)]) ∧
    (∀ (wl : PolicyDoc) (stages : List Stage) (orc : Nat → IterOracle)
        (fuel : Nat) (st : SchedState) (i : Nat),
      runOrchestrator wl stages orc fuel = .crashed st i →
      stages ≠ [] ∧ ∃ att pur dfs,
        categorizeStages stages = some (att, pur, dfs) ∧ dfs ≠ [] ∧
        st.defense_started = false ∧ dfs.length ≤ i) := by
  refine ⟨fun wl orc fuel => rfl, ?_⟩
  intro wl stages orc fuel st i h
  unfold runOrchestrator at h
  cases hc : categorizeStages stages with
  | none =>
    rw [hc] at h
    exact RunOutcome.noConfusion h
  | some t =>
    obtain ⟨att, pur, dfs⟩ := t
    rw [hc] at h
    have hr := runLoop_crashed fuel 0 _ st i h
    refine ⟨?_, att, pur, dfs, rfl, hr.1, hr.2.1, hr.2.2⟩
    intro hnil
    subst hnil
    rw [show categorizeStages [] = none from rfl] at hc
    exact Option.noConfusion hc

/-- Witness for the amended C8 theorem: its crash characterization applied to
the concrete crashing run of the counterexample scenario. -/
theorem scheduler_empty_catalog_exit_witness :
    [stAttack1, stAttack2, stDefense1] ≠ [] ∧ ∃ att pur dfs,
      categorizeStages [stAttack1, stAttack2, stDefense1] = some (att, pur, dfs) ∧
      dfs ≠ [] ∧
      (outState (runOrchestrator specPolicy [stAttack1, stAttack2, stDefense1]
          orcC10 3)).defense_started = false ∧
      dfs.length ≤ 1 :=
  scheduler_empty_catalog_exit_and_crash_shape.2 specPolicy
    [stAttack1, stAttack2, stDefense1] orcC10 3
    (outState (runOrchestrator specPolicy [stAttack1, stAttack2, stDefense1]
      orcC10 3)) 1 rfl

/-- C9: no purpose-category stage is ever executed by the scheduler's main
loop.  In every run (any policy, any stage catalog, any oracle, any fuel)
the purpose cursor of the final state is still 0, no emitted event carries
the purpose phase, and every status event names a stage of the categorized
attack list or defense list — purpose stages are only counted in the startup
message and never normalized, validated, or dispatched. -/
theorem scheduler_never_runs_purpose (wl : PolicyDoc) (stages : List Stage)
    (orc : Nat → IterOracle) (fuel : Nat) :
    (outState (runOrchestrator wl stages orc fuel)).purpose_idx = 0 ∧
    ∀ e ∈ (outState (runOrchestrator wl stages orc fuel)).events,
      eventPhase e ≠ some (("purpose").data) ∧
      ∀ ph i nm, statusStage e = some (ph, i, nm) →
        ∃ att pur dfs, categorizeStages stages = some (att, pur, dfs) ∧
          ((ph = ("attack").data ∧ nm ∈ att.map Stage.name) ∨
           (ph = ("defense").data ∧ nm ∈ dfs.map Stage.name)) := by
  unfold runOrchestrator
  cases hc : categorizeStages stages with
  | none =>
    refine ⟨rfl, ?_⟩
    intro e he
    have he2 := List.mem_singleton.mp he
    subst he2
    refine ⟨fun hcon => Option.noConfusion hcon, fun ph i nm heq => ?_⟩
    exact Option.noConfusion heq
  | some t =>
    obtain ⟨att, pur, dfs⟩ := t
    have hg0 : GoodEvents ⟨wl, att, dfs⟩
        ({ events := [.info (interleavingMsg att.length pur.length dfs.length)] } :
          SchedState).events := by
      refine goodEvents_cons.mpr ⟨?_, goodEvents_nil⟩
      exact goodEvents_phaseOnly (fun hcon => Option.noConfusion hcon) rfl
    have hr := @runLoop_good ⟨wl, att, dfs⟩ orc fuel 0
      { events := [.info (interleavingMsg att.length pur.length dfs.length)] } hg0
    refine ⟨hr.2, ?_⟩
    intro e he
    have hge := hr.1 e he
    refine ⟨hge.1, fun ph i nm heq => ?_⟩
    exact ⟨att, pur, dfs, rfl, hge.2 ph i nm heq⟩

/-- Witness for the C9 theorem: in the concrete one-attack-stage run the
attack status event appears in the trace, and the theorem yields that it
does not carry the purpose phase. -/
theorem scheduler_never_runs_purpose_witness :
    eventPhase (Event.status (("attack").data) 1 (("recon").data)
      (("Starting attack step").data)) ≠ some (("purpose").data) :=
  ((scheduler_never_runs_purpose specPolicy [stAttack1] (fun _ => okOracle) 1).2
    (Event.status (("attack").data) 1 (("recon").data)
      (("Starting attack step").data)) (by decide)).1

theorem monitorStep_ok_props {cfg : SchedConfig} {orc : IterOracle}
    {st st2 : SchedState} {cmd : Str} (hne : cfg.defense_stages ≠ [])
    (hst : st.defense_started = false)
    (h : st.defense_idx < cfg.defense_stages.length)
    (htry : tryAction cfg.wl orc.monitorLLM = .ok cmd)
    (heq : monitorStep cfg orc st = some st2) :
    st2.defense_started = true ∧
    defStatuses st2.events = defStatuses st.events ++
      [(st.defense_idx + 1, (cfg.defense_stages.get ⟨st.defense_idx, h⟩).name)] := by
  rw [monitorStep_ok_eq hne hst h htry] at heq
  injection heq with h2
  subst h2
  refine ⟨rfl, ?_⟩
  simp only [defStatuses_append, defStatuses_status, defStatuses_info,
    run_ssh_command, defStatuses_dispatch, if_pos rfl, eq_self_iff_true,
    ite_true, defStatuses, List.append_nil]

/-- C10: counterexample to the claim that the monitor-mode defense run
executes defense stage index 0 and that the first defense stage is
dispatched twice before the second can run.  In the run below the first
monitor attempt fails, a confirmed detection escalates defense stage 0
("monitor", command `ping -c 3 10.0.0.1`) and advances the cursor to 1, and
the later successful monitor-mode run — the monitor block reads the current
cursor, not index 0 — executes defense stage index 1 ("block", step 2,
command `ping -c 3 10.0.0.2`).  The latch is set, yet stage 0 was dispatched
only once before stage 1 ran. -/
theorem scheduler_monitor_cursor_counterexample :
    (outState (runOrchestrator specPolicy [stAttack1, stAttack2, stDefense1,
        stDefense2] orcC10 2)).defense_started = true ∧
    (outState (runOrchestrator specPolicy [stAttack1, stAttack2, stDefense1,
        stDefense2] orcC10 2)).defense_idx = 1 ∧
    defStatuses (outState (runOrchestrator specPolicy [stAttack1, stAttack2,
        stDefense1, stDefense2] orcC10 2)).events =
      [(1, ("monitor").data), (1, ("monitor").data), (2, ("block").data)] ∧
    dispatches (outState (runOrchestrator specPolicy [stAttack1, stAttack2,
        stDefense1, stDefense2] orcC10 2)).events =
      [(Target.red, ("ping -c 3 10.0.0.5").data),
       (Target.red, ("ping -c 3 10.0.0.1").data),
       (Target.red, ("ping -c 3 10.0.0.5").data),
       (Target.red, ("ping -c 3 10.0.0.2").data)] :=
  ⟨rfl, rfl, rfl, rfl⟩

/-- C10 (amended): the monitor block never advances the defense cursor (its
successor state keeps `defense_idx`; only the escalation branch increments
it), and on the designed path — the first iteration's monitor attempt
succeeds while the cursor is still 0 and a detection is confirmed in the
same window — both defense runs of the iteration (monitor mode and the
escalation) reference defense stage index 0, the latch is set, and only then
does the cursor reach 1.  In general, however, the monitor block reads the
current cursor, so when an escalation precedes the first successful monitor
attempt the monitor-mode run executes a later stage (the C10 counterexample),
not index 0. -/
theorem scheduler_monitor_keeps_cursor :
    (∀ (cfg : SchedConfig) (orc : IterOracle) (st st2 : SchedState),
        monitorStep cfg orc st = some st2 → st2.defense_idx = st.defense_idx) ∧
    (∀ (cfg : SchedConfig) (orc : IterOracle) (cmd ecmd : Str)
        (ha : 0 < cfg.attack_stages.length)
        (hd : 0 < cfg.defense_stages.length),
      tryAction cfg.wl orc.monitorLLM = .ok cmd →
      tryAction cfg.wl orc.escalateLLM = .ok ecmd →
      (∃ d ∈ orc.datagrams, isAlertDatagram d = true) →
      defStatuses (iterState (loopIter cfg orc {})).events =
        [(1, (cfg.defense_stages.get ⟨0, hd⟩).name),
         (1, (cfg.defense_stages.get ⟨0, hd⟩).name)] ∧
      (iterState (loopIter cfg orc {})).defense_idx = 1 ∧
      (iterState (loopIter cfg orc {})).defense_started = true) := by
  refine ⟨fun cfg orc st st2 h => (monitorStep_some_fields h).1, ?_⟩
  intro cfg orc cmd ecmd ha hd hmon hesc halert
  have hne : cfg.defense_stages ≠ [] := by
    intro hn
    rw [hn] at hd
    exact Nat.lt_irrefl 0 hd
  obtain ⟨st1, hst1⟩ : ∃ s, s = attackStep cfg orc {} (cfg.attack_stages.get ⟨0, ha⟩) :=
    ⟨_, rfl⟩
  have h1idx : st1.defense_idx = 0 := by
    rw [hst1]
    exact (attackStep_fields _ _ _ _).1
  have h1st : st1.defense_started = false := by
    rw [hst1]
    exact (attackStep_fields _ _ _ _).2.1
  have h1ds : defStatuses st1.events = [] := by
    rw [hst1]
    exact attackStep_defStatuses _ _ _ _
  have hidx1 : st1.defense_idx < cfg.defense_stages.length := by
    rw [h1idx]
    exact hd
  obtain ⟨stM, hstM⟩ : ∃ s, monitorStep cfg orc st1 = some s :=
    ⟨_, monitorStep_ok_eq hne h1st hidx1 hmon⟩
  obtain ⟨hMstarted, hMds⟩ := monitorStep_ok_props hne h1st hidx1 hmon hstM
  have hMfields := monitorStep_some_fields hstM
  have hloop : loopIter cfg orc {} = afterSleep cfg orc stM := by
    unfold loopIter
    rw [dif_pos (show ({} : SchedState).attack_idx < cfg.attack_stages.length from ha)]
    dsimp only
    rw [← hst1, hstM]
  rw [hloop, iterState_afterSleep,
    afterSleepCore_detection (applyDatagrams_of_alert stM.flag orc.datagrams halert)]
  have hM2idx : ({ stM with
      flag := false,
      events := stM.events ++ [Event.alert] ++ [Event.debug true] } :
        SchedState).defense_idx < cfg.defense_stages.length := by
    show stM.defense_idx < cfg.defense_stages.length
    rw [hMfields.1]
    exact hidx1
  have hM2idx0 : ({ stM with
      flag := false,
      events := stM.events ++ [Event.alert] ++ [Event.debug true] } :
        SchedState).defense_idx = 0 := by
    show stM.defense_idx = 0
    rw [hMfields.1]
    exact h1idx
  refine ⟨?_, ?_, ?_⟩
  · rw [escalateStep_defStatuses hM2idx]
    have hds2 : defStatuses ({ stM with
        flag := false,
        events := stM.events ++ [Event.alert] ++ [Event.debug true] } :
          SchedState).events = defStatuses stM.events := by
      show defStatuses (stM.events ++ [Event.alert] ++ [Event.debug true]) = _
      simp only [defStatuses_append, defStatuses_alert, defStatuses_debug,
        defStatuses, List.append_nil]
    rw [hds2, hMds, h1ds]
    have hMidx0 : stM.defense_idx = 0 := by
      rw [hMfields.1]
      exact h1idx
    simp only [h1idx, hM2idx0, hMidx0]
    rfl
  · rw [escalateStep_idx_inrange hM2idx, hM2idx0]
  · rw [(escalateStep_fields cfg orc _).2.2.2.1]
    show stM.defense_started = true
    exact hMstarted

/-- Witness for the amended C10 theorem: on the designed path (monitor
succeeds in the first iteration, one alert datagram in the window, defense
list `[stDefense1, stDefense2]`), both defense runs of the iteration
reference stage 0 ("monitor") and the cursor ends at 1 with the latch set. -/
theorem scheduler_monitor_keeps_cursor_witness :
    defStatuses (iterState (loopIter
        ⟨specPolicy, [stAttack1], [stDefense1, stDefense2]⟩
        ⟨.ok (mkPing (("10.0.0.5").data)), .ok (mkPing (("10.0.0.5").data)),
         .ok (mkPing (("10.0.0.5").data)), [("ALERT").data]⟩ {})).events =
      [(1, ("monitor").data), (1, ("monitor").data)] ∧
    (iterState (loopIter ⟨specPolicy, [stAttack1], [stDefense1, stDefense2]⟩
        ⟨.ok (mkPing (("10.0.0.5").data)), .ok (mkPing (("10.0.0.5").data)),
         .ok (mkPing (("10.0.0.5").data)), [("ALERT").data]⟩ {})).defense_idx = 1 ∧
    (iterState (loopIter ⟨specPolicy, [stAttack1], [stDefense1, stDefense2]⟩
        ⟨.ok (mkPing (("10.0.0.5").data)), .ok (mkPing (("10.0.0.5").data)),
         .ok (mkPing (("10.0.0.5").data)), [("ALERT").data]⟩ {})).defense_started =
      true :=
  scheduler_monitor_keeps_cursor.2
    ⟨specPolicy, [stAttack1], [stDefense1, stDefense2]⟩
    ⟨.ok (mkPing (("10.0.0.5").data)), .ok (mkPing (("10.0.0.5").data)),
     .ok (mkPing (("10.0.0.5").data)), [("ALERT").data]⟩
    (("ping -c 3 10.0.0.5").data) (("ping -c 3 10.0.0.5").data)
    (by decide) (by decide) rfl rfl ⟨("ALERT").data, by decide, by decide⟩
